import Mathlib

/-
Shallow embedding of the RsMd markdown engine (src/lexer.rs, src/parser.rs,
src/types.rs) and proofs about its tokenizer, block grouper, block parser and
inline parser.

Conventions of the embedding:
* A line of input is a list of grapheme clusters (`List String`), mirroring
  `markdown_line.graphemes(true)` in the lexer.
* The Unicode classifier `is_punctuation` of src/lexer.rs (a library call into
  unicode_categories) is a parameter `isPunct : String → Bool` of the
  tokenizer; `ascii_punctuation` below instantiates it on the ASCII range
  following the Unicode general categories (P* or Sc).
* The tokenizer's index-based loop is modelled with an explicit index and a
  fuel argument; every slice access `chars[k]` of the source is modelled by
  `List.get?`, and an out-of-bounds access (a Rust panic) yields `none`, as
  does fuel exhaustion (a diverging loop).  Totality of the source tokenizer
  is therefore the theorem that the model never returns `none`.
-/

/- Token: the token type of src/types.rs. -/
inductive Token where
  | Text (s : String)
  | EmphasisRun (delimiter : Char) (length : Nat)
  | Punctuation (s : String)
  | OpenBracket
  | CloseBracket
  | OpenParenthesis
  | CloseParenthesis
  | TableCellSeparator
  | OrderedListMarker (s : String)
  | Whitespace
  | CodeTick
  | CodeFence
  | ThematicBreak
  | Escape (s : String)
  | Tab
  | Newline
  | BlockQuoteMarker
  | RawHtmlTag (s : String)
  deriving Repr, DecidableEq

/- push_buffer_to_collection of src/utils.rs at type Vec<Token>: if the buffer
is non-empty, push it (converted through From<String>, i.e. Token::Text) and
clear it.  The cleared buffer is modelled by the caller continuing with "". -/
def push_buffer_to_collection (tokens : List Token) (buffer : String) : List Token :=
  if buffer.isEmpty then tokens else tokens ++ [Token.Text buffer]

/- The inner while loop of the EmphasisRun branch of tokenize: the number of
further graphemes equal to the delimiter at the front of the rest of the line. -/
def emphasis_run_length (delim : String) : List String → Nat
  | [] => 0
  | g :: rest => if g = delim then emphasis_run_length delim rest + 1 else 0

def is_ascii_digit (g : String) : Bool :=
  g ∈ (["0", "1", "2", "3", "4", "5", "6", "7", "8", "9"] : List String)

/- The main loop of tokenize (src/lexer.rs lines 36-163), one equation per
fuel step.  `i` is the loop index, `tokens` the output vector, `buffer` the
text accumulation buffer.  Branches appear in the order of the source match. -/
def tokenize_loop (isPunct : String → Bool) (gs : List String) :
    Nat → Nat → List Token → String → Option (List Token)
  | 0, _, _, _ => none
  | fuel + 1, i, tokens, buffer =>
    if i < gs.length then
      match gs.get? i with
      | none => none
      | some g =>
        if g = "*" ∨ g = "_" then
          let tokens := push_buffer_to_collection tokens buffer
          let delimiter : Char := if g = "*" then '*' else '_'
          let run_length := 1 + emphasis_run_length g (gs.drop (i + 1))
          tokenize_loop isPunct gs fuel (i + run_length)
            (tokens ++ [Token.EmphasisRun delimiter run_length]) ""
        else if g = "`" then
          let tokens := push_buffer_to_collection tokens buffer
          if i + 2 < gs.length then
            match gs.get? (i + 1) with
            | none => none
            | some g1 =>
              match gs.get? (i + 2) with
              | none => none
              | some g2 =>
                if g1 = "`" ∧ g2 = "`" then
                  tokenize_loop isPunct gs fuel (i + 3) (tokens ++ [Token.CodeFence]) ""
                else
                  tokenize_loop isPunct gs fuel (i + 1) (tokens ++ [Token.CodeTick]) ""
          else
            tokenize_loop isPunct gs fuel (i + 1) (tokens ++ [Token.CodeTick]) ""
        else if g = "\\" then
          let tokens := push_buffer_to_collection tokens buffer
          if i + 1 < gs.length then
            match gs.get? (i + 1) with
            | some g1 => tokenize_loop isPunct gs fuel (i + 2) (tokens ++ [Token.Escape g1]) ""
            | none => none
          else
            tokenize_loop isPunct gs fuel (i + 1) tokens "\\"
        else if g = "-" then
          let tokens := push_buffer_to_collection tokens buffer
          if i + 2 < gs.length then
            match gs.get? (i + 1) with
            | none => none
            | some g1 =>
              match gs.get? (i + 2) with
              | none => none
              | some g2 =>
                if g1 = "-" ∧ g2 = "-" then
                  tokenize_loop isPunct gs fuel (i + 3) (tokens ++ [Token.ThematicBreak]) ""
                else
                  tokenize_loop isPunct gs fuel (i + 1) (tokens ++ [Token.Punctuation g]) ""
          else
            tokenize_loop isPunct gs fuel (i + 1) (tokens ++ [Token.Punctuation g]) ""
        else if g = "[" then
          tokenize_loop isPunct gs fuel (i + 1)
            (push_buffer_to_collection tokens buffer ++ [Token.OpenBracket]) ""
        else if g = "]" then
          tokenize_loop isPunct gs fuel (i + 1)
            (push_buffer_to_collection tokens buffer ++ [Token.CloseBracket]) ""
        else if g = "(" then
          tokenize_loop isPunct gs fuel (i + 1)
            (push_buffer_to_collection tokens buffer ++ [Token.OpenParenthesis]) ""
        else if g = ")" then
          tokenize_loop isPunct gs fuel (i + 1)
            (push_buffer_to_collection tokens buffer ++ [Token.CloseParenthesis]) ""
        else if is_ascii_digit g then
          if i + 2 < gs.length then
            match gs.get? (i + 1) with
            | none => none
            | some g1 =>
              match gs.get? (i + 2) with
              | none => none
              | some g2 =>
                if g1 = "." ∧ g2 = " " then
                  if i = 0 ∨ tokens.getLast? = some Token.Tab then
                    tokenize_loop isPunct gs fuel (i + 2)
                      (push_buffer_to_collection tokens buffer
                        ++ [Token.OrderedListMarker (g ++ g1)]) ""
                  else
                    tokenize_loop isPunct gs fuel (i + 1) tokens (buffer ++ g)
                else
                  tokenize_loop isPunct gs fuel (i + 1) tokens (buffer ++ g)
          else
            tokenize_loop isPunct gs fuel (i + 1) tokens (buffer ++ g)
        else if g = "\t" then
          tokenize_loop isPunct gs fuel (i + 1)
            (push_buffer_to_collection tokens buffer ++ [Token.Tab]) ""
        else if g = " " then
          if i + 3 < gs.length then
            match gs.get? (i + 1) with
            | none => none
            | some g1 =>
              match gs.get? (i + 2) with
              | none => none
              | some g2 =>
                match gs.get? (i + 3) with
                | none => none
                | some g3 =>
                  if g1 = " " ∧ g2 = " " ∧ g3 = " " then
                    tokenize_loop isPunct gs fuel (i + 4)
                      (push_buffer_to_collection tokens buffer ++ [Token.Tab]) ""
                  else
                    tokenize_loop isPunct gs fuel (i + 1)
                      (push_buffer_to_collection tokens buffer ++ [Token.Whitespace]) ""
          else
            tokenize_loop isPunct gs fuel (i + 1)
              (push_buffer_to_collection tokens buffer ++ [Token.Whitespace]) ""
        else if g = "" ∨ g = "\n" then
          tokenize_loop isPunct gs fuel (i + 1)
            (push_buffer_to_collection tokens buffer ++ [Token.Newline]) ""
        else if isPunct g then
          tokenize_loop isPunct gs fuel (i + 1)
            (push_buffer_to_collection tokens buffer ++ [Token.Punctuation g]) ""
        else
          tokenize_loop isPunct gs fuel (i + 1) tokens (buffer ++ g)
    else
      some (push_buffer_to_collection tokens buffer)

/- tokenize of src/lexer.rs: empty line short-circuits to [Newline]; otherwise
run the loop from index 0 with empty output and buffer.  The fuel
gs.length + 1 covers one loop entry per grapheme plus the final bounds check. -/
def tokenize (isPunct : String → Bool) (markdown_line : List String) : Option (List Token) :=
  if markdown_line.isEmpty then some [Token.Newline]
  else tokenize_loop isPunct markdown_line (markdown_line.length + 1) 0 [] ""

/- is_punctuation of src/lexer.rs restricted to ASCII graphemes: the single
characters of Unicode general category P* or Sc.  ('+', '<', '=', '>', '|',
'~', '^' are Sm/Sk and are not punctuation; '$' is Sc.) -/
def ascii_punctuation (g : String) : Bool :=
  g ∈ (["!", "\"", "#", "%", "&", "(", ")", "*", ",", "-", ".", "/",
        ":", ";", "?", "@", "[", "\\", "]", "_", "$"] : List String)

example : tokenize ascii_punctuation [] = some [Token.Newline] := by decide

example :
    tokenize ascii_punctuation ["H", "i", "!"] =
      some [Token.Text "Hi", Token.Punctuation "!"] := by decide

example :
    tokenize ascii_punctuation ["*", "i", "t", "*"] =
      some [Token.EmphasisRun '*' 1, Token.Text "it", Token.EmphasisRun '*' 1] := by decide

example :
    tokenize ascii_punctuation ["-", "-", "-"] = some [Token.ThematicBreak] := by decide

example :
    tokenize ascii_punctuation [" ", " ", " ", " ", "-", " ", "a"] =
      some [Token.Tab, Token.Punctuation "-", Token.Whitespace, Token.Text "a"] := by decide

example :
    tokenize ascii_punctuation ["1", ".", " ", "a"] =
      some [Token.OrderedListMarker "1.", Token.Whitespace, Token.Text "a"] := by decide

/- Every iteration of the tokenize loop advances the index, so fuel exceeding
the remaining graphemes guarantees a some result: neither the fuel counter nor
any of the modelled slice accesses can fail. -/
lemma tokenize_loop_isSome (isP : String → Bool) (gs : List String) :
    ∀ fuel i tokens buffer, gs.length - i < fuel →
      (tokenize_loop isP gs fuel i tokens buffer).isSome := by
  intro fuel
  induction fuel with
  | zero => intro i tokens buffer h; omega
  | succ fuel ih =>
    intro i tokens buffer h
    by_cases hi : i < gs.length
    · obtain ⟨g, hgi⟩ : ∃ g, gs.get? i = some g := ⟨gs.get ⟨i, hi⟩, List.get?_eq_get hi⟩
      simp only [tokenize_loop, if_pos hi, hgi]
      by_cases hA : g = "*" ∨ g = "_"
      · rw [if_pos hA]; apply ih; omega
      rw [if_neg hA]
      by_cases hB : g = "`"
      · rw [if_pos hB]
        by_cases hb : i + 2 < gs.length
        · rw [if_pos hb]
          obtain ⟨g1, h1⟩ : ∃ x, gs.get? (i + 1) = some x :=
            ⟨gs.get ⟨i + 1, by omega⟩, List.get?_eq_get (by omega)⟩
          obtain ⟨g2, h2⟩ : ∃ x, gs.get? (i + 2) = some x :=
            ⟨gs.get ⟨i + 2, by omega⟩, List.get?_eq_get (by omega)⟩
          simp only [h1, h2]
          split
          · apply ih; omega
          · apply ih; omega
        · rw [if_neg hb]; apply ih; omega
      rw [if_neg hB]
      by_cases hC : g = "\\"
      · rw [if_pos hC]
        by_cases hb : i + 1 < gs.length
        · rw [if_pos hb]
          obtain ⟨g1, h1⟩ : ∃ x, gs.get? (i + 1) = some x :=
            ⟨gs.get ⟨i + 1, by omega⟩, List.get?_eq_get (by omega)⟩
          simp only [h1]
          apply ih; omega
        · rw [if_neg hb]; apply ih; omega
      rw [if_neg hC]
      by_cases hD : g = "-"
      · rw [if_pos hD]
        by_cases hb : i + 2 < gs.length
        · rw [if_pos hb]
          obtain ⟨g1, h1⟩ : ∃ x, gs.get? (i + 1) = some x :=
            ⟨gs.get ⟨i + 1, by omega⟩, List.get?_eq_get (by omega)⟩
          obtain ⟨g2, h2⟩ : ∃ x, gs.get? (i + 2) = some x :=
            ⟨gs.get ⟨i + 2, by omega⟩, List.get?_eq_get (by omega)⟩
          simp only [h1, h2]
          split
          · apply ih; omega
          · apply ih; omega
        · rw [if_neg hb]; apply ih; omega
      rw [if_neg hD]
      by_cases hE : g = "["
      · rw [if_pos hE]; apply ih; omega
      rw [if_neg hE]
      by_cases hF : g = "]"
      · rw [if_pos hF]; apply ih; omega
      rw [if_neg hF]
      by_cases hG : g = "("
      · rw [if_pos hG]; apply ih; omega
      rw [if_neg hG]
      by_cases hH : g = ")"
      · rw [if_pos hH]; apply ih; omega
      rw [if_neg hH]
      by_cases hI : is_ascii_digit g = true
      · rw [if_pos hI]
        by_cases hb : i + 2 < gs.length
        · rw [if_pos hb]
          obtain ⟨g1, h1⟩ : ∃ x, gs.get? (i + 1) = some x :=
            ⟨gs.get ⟨i + 1, by omega⟩, List.get?_eq_get (by omega)⟩
          obtain ⟨g2, h2⟩ : ∃ x, gs.get? (i + 2) = some x :=
            ⟨gs.get ⟨i + 2, by omega⟩, List.get?_eq_get (by omega)⟩
          simp only [h1, h2]
          split
          · split
            · apply ih; omega
            · apply ih; omega
          · apply ih; omega
        · rw [if_neg hb]; apply ih; omega
      rw [if_neg hI]
      by_cases hJ : g = "\t"
      · rw [if_pos hJ]; apply ih; omega
      rw [if_neg hJ]
      by_cases hK : g = " "
      · rw [if_pos hK]
        by_cases hb : i + 3 < gs.length
        · rw [if_pos hb]
          obtain ⟨g1, h1⟩ : ∃ x, gs.get? (i + 1) = some x :=
            ⟨gs.get ⟨i + 1, by omega⟩, List.get?_eq_get (by omega)⟩
          obtain ⟨g2, h2⟩ : ∃ x, gs.get? (i + 2) = some x :=
            ⟨gs.get ⟨i + 2, by omega⟩, List.get?_eq_get (by omega)⟩
          obtain ⟨g3, h3⟩ : ∃ x, gs.get? (i + 3) = some x :=
            ⟨gs.get ⟨i + 3, by omega⟩, List.get?_eq_get (by omega)⟩
          simp only [h1, h2, h3]
          split
          · apply ih; omega
          · apply ih; omega
        · rw [if_neg hb]; apply ih; omega
      rw [if_neg hK]
      by_cases hL : g = "" ∨ g = "\n"
      · rw [if_pos hL]; apply ih; omega
      rw [if_neg hL]
      by_cases hM : isP g = true
      · rw [if_pos hM]; apply ih; omega
      rw [if_neg hM]
      apply ih; omega
    · simp only [tokenize_loop, if_neg hi]
      rfl

/- The shapes of tokens the tokenize loop can append to its accumulator; a
Newline shape additionally carries the witness that some grapheme of the line
is empty or a newline, since only the end-of-line branch emits Newline. -/
def emitted_shape (gs : List String) (t : Token) : Prop :=
  (∃ s, t = Token.Text s) ∨ (∃ c n, t = Token.EmphasisRun c n) ∨
  (∃ s, t = Token.Punctuation s) ∨ t = Token.OpenBracket ∨ t = Token.CloseBracket ∨
  t = Token.OpenParenthesis ∨ t = Token.CloseParenthesis ∨
  (∃ s, t = Token.OrderedListMarker s) ∨ t = Token.Whitespace ∨ t = Token.CodeTick ∨
  t = Token.CodeFence ∨ t = Token.ThematicBreak ∨ (∃ s, t = Token.Escape s) ∨
  t = Token.Tab ∨ (t = Token.Newline ∧ ∃ g ∈ gs, g = "" ∨ g = "\n")

lemma mem_push_buffer {t : Token} {tokens : List Token} {buffer : String}
    (h : t ∈ push_buffer_to_collection tokens buffer) :
    t ∈ tokens ∨ ∃ s, t = Token.Text s := by
  unfold push_buffer_to_collection at h
  split at h
  · exact Or.inl h
  · rcases List.mem_append.mp h with h | h
    · exact Or.inl h
    · exact Or.inr ⟨buffer, by simpa using h⟩

lemma tokenize_loop_emitted (isP : String → Bool) (gs : List String) :
    ∀ fuel i tokens buffer ts,
      tokenize_loop isP gs fuel i tokens buffer = some ts →
      ∀ t ∈ ts, t ∈ tokens ∨ emitted_shape gs t := by
  intro fuel
  induction fuel with
  | zero =>
    intro i tokens buffer ts heq
    exact absurd heq (by simp [tokenize_loop])
  | succ fuel ih =>
    intro i tokens buffer ts heq
    have step : ∀ (i' : Nat) (A : List Token) (b : String),
        (∀ x ∈ A, x ∈ tokens ∨ emitted_shape gs x) →
        tokenize_loop isP gs fuel i' A b = some ts →
        ∀ t ∈ ts, t ∈ tokens ∨ emitted_shape gs t := by
      intro i' A b hA heq' t ht
      rcases ih i' A b ts heq' t ht with hmem | hem
      · exact hA t hmem
      · exact Or.inr hem
    have hacc0 : ∀ x ∈ push_buffer_to_collection tokens buffer, x ∈ tokens ∨ emitted_shape gs x := by
      intro x hx
      rcases mem_push_buffer hx with hx | ⟨s, rfl⟩
      · exact Or.inl hx
      · exact Or.inr (Or.inl ⟨s, rfl⟩)
    have hacc : ∀ (X : Token), emitted_shape gs X →
        ∀ x ∈ push_buffer_to_collection tokens buffer ++ [X], x ∈ tokens ∨ emitted_shape gs x := by
      intro X hX x hx
      rcases List.mem_append.mp hx with hx | hx
      · exact hacc0 x hx
      · rcases List.mem_singleton.mp hx with rfl
        exact Or.inr hX
    have hkeep : ∀ x ∈ tokens, x ∈ tokens ∨ emitted_shape gs x := fun x hx => Or.inl hx
    by_cases hi : i < gs.length
    · obtain ⟨g, hgi⟩ : ∃ g, gs.get? i = some g := ⟨gs.get ⟨i, hi⟩, List.get?_eq_get hi⟩
      simp only [tokenize_loop, if_pos hi, hgi] at heq
      by_cases hA : g = "*" ∨ g = "_"
      · rw [if_pos hA] at heq
        exact step _ _ _ (hacc _ (by simp [emitted_shape])) heq
      rw [if_neg hA] at heq
      by_cases hB : g = "`"
      · rw [if_pos hB] at heq
        by_cases hb : i + 2 < gs.length
        · rw [if_pos hb] at heq
          obtain ⟨g1, h1⟩ : ∃ x, gs.get? (i + 1) = some x :=
            ⟨gs.get ⟨i + 1, by omega⟩, List.get?_eq_get (by omega)⟩
          obtain ⟨g2, h2⟩ : ∃ x, gs.get? (i + 2) = some x :=
            ⟨gs.get ⟨i + 2, by omega⟩, List.get?_eq_get (by omega)⟩
          simp only [h1, h2] at heq
          split at heq
          · exact step _ _ _ (hacc _ (by simp [emitted_shape])) heq
          · exact step _ _ _ (hacc _ (by simp [emitted_shape])) heq
        · rw [if_neg hb] at heq
          exact step _ _ _ (hacc _ (by simp [emitted_shape])) heq
      rw [if_neg hB] at heq
      by_cases hC : g = "\\"
      · rw [if_pos hC] at heq
        by_cases hb : i + 1 < gs.length
        · rw [if_pos hb] at heq
          obtain ⟨g1, h1⟩ : ∃ x, gs.get? (i + 1) = some x :=
            ⟨gs.get ⟨i + 1, by omega⟩, List.get?_eq_get (by omega)⟩
          simp only [h1] at heq
          exact step _ _ _ (hacc _ (by simp [emitted_shape])) heq
        · rw [if_neg hb] at heq
          exact step _ _ _ hacc0 heq
      rw [if_neg hC] at heq
      by_cases hD : g = "-"
      · rw [if_pos hD] at heq
        by_cases hb : i + 2 < gs.length
        · rw [if_pos hb] at heq
          obtain ⟨g1, h1⟩ : ∃ x, gs.get? (i + 1) = some x :=
            ⟨gs.get ⟨i + 1, by omega⟩, List.get?_eq_get (by omega)⟩
          obtain ⟨g2, h2⟩ : ∃ x, gs.get? (i + 2) = some x :=
            ⟨gs.get ⟨i + 2, by omega⟩, List.get?_eq_get (by omega)⟩
          simp only [h1, h2] at heq
          split at heq
          · exact step _ _ _ (hacc _ (by simp [emitted_shape])) heq
          · exact step _ _ _ (hacc _ (by simp [emitted_shape])) heq
        · rw [if_neg hb] at heq
          exact step _ _ _ (hacc _ (by simp [emitted_shape])) heq
      rw [if_neg hD] at heq
      by_cases hE : g = "["
      · rw [if_pos hE] at heq
        exact step _ _ _ (hacc _ (by simp [emitted_shape])) heq
      rw [if_neg hE] at heq
      by_cases hF : g = "]"
      · rw [if_pos hF] at heq
        exact step _ _ _ (hacc _ (by simp [emitted_shape])) heq
      rw [if_neg hF] at heq
      by_cases hG : g = "("
      · rw [if_pos hG] at heq
        exact step _ _ _ (hacc _ (by simp [emitted_shape])) heq
      rw [if_neg hG] at heq
      by_cases hH : g = ")"
      · rw [if_pos hH] at heq
        exact step _ _ _ (hacc _ (by simp [emitted_shape])) heq
      rw [if_neg hH] at heq
      by_cases hI : is_ascii_digit g = true
      · rw [if_pos hI] at heq
        by_cases hb : i + 2 < gs.length
        · rw [if_pos hb] at heq
          obtain ⟨g1, h1⟩ : ∃ x, gs.get? (i + 1) = some x :=
            ⟨gs.get ⟨i + 1, by omega⟩, List.get?_eq_get (by omega)⟩
          obtain ⟨g2, h2⟩ : ∃ x, gs.get? (i + 2) = some x :=
            ⟨gs.get ⟨i + 2, by omega⟩, List.get?_eq_get (by omega)⟩
          simp only [h1, h2] at heq
          split at heq
          · split at heq
            · exact step _ _ _ (hacc _ (by simp [emitted_shape])) heq
            · exact step _ _ _ hkeep heq
          · exact step _ _ _ hkeep heq
        · rw [if_neg hb] at heq
          exact step _ _ _ hkeep heq
      rw [if_neg hI] at heq
      by_cases hJ : g = "\t"
      · rw [if_pos hJ] at heq
        exact step _ _ _ (hacc _ (by simp [emitted_shape])) heq
      rw [if_neg hJ] at heq
      by_cases hK : g = " "
      · rw [if_pos hK] at heq
        by_cases hb : i + 3 < gs.length
        · rw [if_pos hb] at heq
          obtain ⟨g1, h1⟩ : ∃ x, gs.get? (i + 1) = some x :=
            ⟨gs.get ⟨i + 1, by omega⟩, List.get?_eq_get (by omega)⟩
          obtain ⟨g2, h2⟩ : ∃ x, gs.get? (i + 2) = some x :=
            ⟨gs.get ⟨i + 2, by omega⟩, List.get?_eq_get (by omega)⟩
          obtain ⟨g3, h3⟩ : ∃ x, gs.get? (i + 3) = some x :=
            ⟨gs.get ⟨i + 3, by omega⟩, List.get?_eq_get (by omega)⟩
          simp only [h1, h2, h3] at heq
          split at heq
          · exact step _ _ _ (hacc _ (by simp [emitted_shape])) heq
          · exact step _ _ _ (hacc _ (by simp [emitted_shape])) heq
        · rw [if_neg hb] at heq
          exact step _ _ _ (hacc _ (by simp [emitted_shape])) heq
      rw [if_neg hK] at heq
      by_cases hL : g = "" ∨ g = "\n"
      · rw [if_pos hL] at heq
        have hnl : emitted_shape gs Token.Newline := by
          simp only [emitted_shape]
          simp only [reduceCtorEq, false_or, exists_false, false_and, or_false, true_and]
          exact ⟨g, List.get?_mem hgi, hL⟩
        exact step _ _ _ (hacc _ hnl) heq
      rw [if_neg hL] at heq
      by_cases hM : isP g = true
      · rw [if_pos hM] at heq
        exact step _ _ _ (hacc _ (by simp [emitted_shape])) heq
      rw [if_neg hM] at heq
      exact step _ _ _ hkeep heq
    · simp only [tokenize_loop, if_neg hi] at heq
      rcases Option.some.inj heq with rfl
      intro t ht
      exact hacc0 t ht

/- Lifting the loop invariant to tokenize itself: every token of the output is
an emitted shape, except the [Newline] produced for the empty line. -/
lemma tokenize_emitted (isP : String → Bool) (gs : List String) (ts : List Token)
    (h : tokenize isP gs = some ts) :
    ∀ t ∈ ts, emitted_shape gs t ∨ (gs = [] ∧ t = Token.Newline) := by
  unfold tokenize at h
  split at h
  · rcases Option.some.inj h with rfl
    intro t ht
    rcases List.mem_singleton.mp ht with rfl
    rename_i hemp
    exact Or.inr ⟨List.isEmpty_iff.mp hemp, rfl⟩
  · intro t ht
    rcases tokenize_loop_emitted isP gs _ _ _ _ _ h t ht with hmem | hem
    · exact absurd hmem (List.not_mem_nil t)
    · exact Or.inl hem

/-- C5: tokenize is total: for every grapheme-cluster line the modelled loop
returns a token vector (no fuel exhaustion and no out-of-bounds access, i.e.
no panic), and on the empty string it returns exactly [Newline]. -/
theorem c5_tokenize_total :
    (∀ (isPunct : String → Bool) (line : List String), (tokenize isPunct line).isSome) ∧
    (∀ isPunct : String → Bool, tokenize isPunct [] = some [Token.Newline]) := by
  constructor
  · intro isP line
    unfold tokenize
    split
    · rfl
    · exact tokenize_loop_isSome isP line (line.length + 1) 0 [] "" (by omega)
  · intro isP
    rfl

/-- C10: for every input line, the token vector returned by tokenize contains
no BlockQuoteMarker, no TableCellSeparator and no RawHtmlTag token: these
three Token variants are unreachable from the tokenizer. -/
theorem c10_no_unreachable_variants :
    ∀ (isPunct : String → Bool) (line : List String) (ts : List Token),
      tokenize isPunct line = some ts →
      Token.BlockQuoteMarker ∉ ts ∧ Token.TableCellSeparator ∉ ts ∧
        ∀ s, Token.RawHtmlTag s ∉ ts := by
  intro isP line ts h
  have he := tokenize_emitted isP line ts h
  refine ⟨fun hc => ?_, fun hc => ?_, fun s hc => ?_⟩
  all_goals
    rcases he _ hc with hem | ⟨_, hteq⟩
    · simp [emitted_shape] at hem
    · simp at hteq

/-- Witness for C10 at the line "> a" (the graphemes of a blockquote-looking
line): the classification marker tokens are absent from its tokenization. -/
theorem c10_no_unreachable_variants_witness :
    Token.BlockQuoteMarker ∉ [Token.Text ">", Token.Whitespace, Token.Text "a"] ∧
      Token.TableCellSeparator ∉ [Token.Text ">", Token.Whitespace, Token.Text "a"] ∧
      ∀ s, Token.RawHtmlTag s ∉ [Token.Text ">", Token.Whitespace, Token.Text "a"] :=
  c10_no_unreachable_variants ascii_punctuation [">", " ", "a"]
    [Token.Text ">", Token.Whitespace, Token.Text "a"] (by decide)

/-- C4 as stated is false: tokenizing the non-empty line "a" yields exactly
[Text "a"], whose final token is not Newline. -/
theorem c4_counterexample :
    tokenize ascii_punctuation ["a"] = some [Token.Text "a"] ∧
      [Token.Text "a"].getLast? ≠ some Token.Newline := by decide

/-- C4 (amended): tokenize returns exactly [Newline] for the empty line, but it
emits Newline tokens only for newline (or empty) graphemes of the line itself:
a non-empty line containing no such grapheme produces no Newline token at all,
so its token sequence does not end with Newline. -/
theorem c4_trailing_newline_amended :
    (∀ isPunct : String → Bool, tokenize isPunct [] = some [Token.Newline]) ∧
    (∀ (isPunct : String → Bool) (line : List String) (ts : List Token),
      (∀ g ∈ line, g ≠ "" ∧ g ≠ "\n") → line ≠ [] →
      tokenize isPunct line = some ts → Token.Newline ∉ ts) := by
  constructor
  · intro isP
    rfl
  · intro isP line ts hg hne h hmem
    rcases tokenize_emitted isP line ts h _ hmem with hem | ⟨hnil, _⟩
    · simp only [emitted_shape, reduceCtorEq, false_or, exists_false, false_and, or_false,
        true_and] at hem
      obtain ⟨g, hgm, hgo⟩ := hem
      rcases hgo with rfl | rfl
      · exact (hg _ hgm).1 rfl
      · exact (hg _ hgm).2 rfl
    · exact hne hnil

/-- Witness for the amended C4: the line "a" has no newline grapheme, and its
tokenization contains no Newline token. -/
theorem c4_trailing_newline_amended_witness : Token.Newline ∉ [Token.Text "a"] :=
  c4_trailing_newline_amended.2 ascii_punctuation ["a"] [Token.Text "a"]
    (by decide) (by decide) (by decide)

/- MdInlineElement of src/types.rs.  Placeholder is the transient
emphasis-resolution scratch value. -/
inductive MdInlineElement where
  | Text (content : String)
  | Bold (content : List MdInlineElement)
  | Italic (content : List MdInlineElement)
  | Link (text : List MdInlineElement) (title : Option String) (url : String)
  | Image (alt_text : String) (title : Option String) (url : String)
  | Code (content : String)
  | Placeholder
  deriving Repr

/- push_buffer_to_collection of src/utils.rs at type Vec<MdInlineElement>
(From<String> builds MdInlineElement::Text). -/
def push_buffer_inline (elements : List MdInlineElement) (buffer : String) :
    List MdInlineElement :=
  if buffer.isEmpty then elements else elements ++ [MdInlineElement.Text buffer]

/- flatten_inline of src/parser.rs, with the list recursion split off; the
catch-all arm (Placeholder) contributes nothing. -/
mutual
def flatten_inline : MdInlineElement → String
  | .Text content => content
  | .Bold content => flatten_inline_list content
  | .Italic content => flatten_inline_list content
  | .Code content => content
  | .Link text _ _ => flatten_inline_list text
  | .Image alt_text _ _ => alt_text
  | .Placeholder => ""

def flatten_inline_list : List MdInlineElement → String
  | [] => ""
  | e :: es => flatten_inline e ++ flatten_inline_list es
end

/- Whether a Placeholder occurs anywhere in an inline tree. -/
mutual
def contains_placeholder : MdInlineElement → Bool
  | .Placeholder => true
  | .Bold content => contains_placeholder_list content
  | .Italic content => contains_placeholder_list content
  | .Link text _ _ => contains_placeholder_list text
  | _ => false

def contains_placeholder_list : List MdInlineElement → Bool
  | [] => false
  | e :: es => contains_placeholder e || contains_placeholder_list es
end

/- Delimiter of src/types.rs. -/
structure Delimiter where
  ch : Char
  run_length : Nat
  token_position : Nat
  parsed_position : Nat
  active : Bool
  can_open : Bool
  can_close : Bool
  deriving Repr, DecidableEq

/- is_whitespace of src/types.rs. -/
def is_whitespace_token : Token → Bool
  | Token.Newline | Token.Whitespace => true
  | _ => false

/- is_punctuation of src/types.rs (the token-level helper). -/
def is_punctuation_token : Token → Bool
  | Token.Punctuation _ | Token.EmphasisRun _ _ | Token.OpenBracket | Token.CloseBracket
  | Token.OpenParenthesis | Token.CloseParenthesis => true
  | _ => false

/- Delimiter::classify_flanking of src/types.rs.  The source indexes
tokens[token_position - 1] directly, which is always in bounds because
token_position is a valid cursor position; the model uses List.get?. -/
def classify_flanking (tokens : List Token) (d : Delimiter) : Delimiter :=
  let before := if d.token_position > 0 then tokens.get? (d.token_position - 1) else none
  let after := tokens.get? (d.token_position + 1)
  let followed_by_whitespace := match after with
    | none => true
    | some t => is_whitespace_token t
  let followed_by_punctuation := match after with
    | none => false
    | some t => is_punctuation_token t
  let preceded_by_whitespace := match before with
    | none => true
    | some t => is_whitespace_token t
  let preceded_by_punctuation := match before with
    | none => false
    | some t => is_punctuation_token t
  let is_left_flanking :=
    if followed_by_whitespace then false
    else if !followed_by_punctuation then true
    else preceded_by_whitespace || preceded_by_punctuation
  let is_right_flanking :=
    if preceded_by_whitespace then false
    else if !preceded_by_punctuation then true
    else followed_by_whitespace || followed_by_punctuation
  let is_underscore := d.ch = '_'
  if is_underscore then
    { d with
      can_open := is_left_flanking && (!is_right_flanking || followed_by_punctuation),
      can_close := is_right_flanking && (!is_left_flanking || followed_by_punctuation) }
  else
    { d with can_open := is_left_flanking, can_close := is_right_flanking }

/- The rule-of-three rejection condition of resolve_emphasis
(src/parser.rs lines 651-660), exactly as the source writes it. -/
def rule_of_three_rejects (closer opener : Delimiter) : Bool :=
  ((closer.can_open && closer.can_close) || (opener.can_open && opener.can_close))
    && ((closer.run_length + opener.run_length) % 3 == 0)
    && !(closer.run_length % 3 == 0)
    && !(opener.run_length % 3 == 0)

/- elements[s..e].to_vec() of the source (a Rust slice panics when the range
is inverted or past the end; at every reachable call site of the source the
range is proper, and the model clamps like take/drop do). -/
def slice_to_vec (elements : List MdInlineElement) (s e : Nat) : List MdInlineElement :=
  (elements.drop s).take (e - s)

/- elements.splice(s..=e, vec![x]) of the source, same clamping note. -/
def splice_replace (elements : List MdInlineElement) (s e : Nat) (x : MdInlineElement) :
    List MdInlineElement :=
  elements.take s ++ [x] ++ elements.drop (e + 1)

/- One iteration of the inner (j) loop of resolve_emphasis for a fixed closer
index i.  `closer` is the clone taken once before the inner loop, so it is
deliberately stale with respect to the stack updates, exactly as in the
source. -/
def emphasis_pair_step (i j : Nat) (closer : Delimiter)
    (st : List MdInlineElement × List Delimiter) :
    List MdInlineElement × List Delimiter :=
  let (elements, stack) := st
  match stack.get? j with
  | none => st
  | some dj =>
    if !(dj.active && dj.can_open) then st
    else
      let opener := dj
      if !(closer.ch == opener.ch) then st
      else if rule_of_three_rejects closer opener then st
      else
        let delimiters_used : Nat :=
          if closer.run_length ≥ 2 ∧ opener.run_length ≥ 2 then 2 else 1
        let range_start :=
          if opener.run_length > delimiters_used then opener.parsed_position + 1
          else opener.parsed_position
        let range_end :=
          if closer.run_length ≥ delimiters_used then closer.parsed_position
          else closer.parsed_position + 1
        let inner := slice_to_vec elements (range_start + 1) range_end
        let element_to_insert :=
          if delimiters_used = 2 then MdInlineElement.Bold inner
          else MdInlineElement.Italic inner
        let elements := splice_replace elements range_start range_end element_to_insert
        let num_elements_removed := range_end - range_start
        let stack := stack.map fun d =>
          if d.parsed_position > closer.parsed_position then
            { d with parsed_position := d.parsed_position - num_elements_removed }
          else d
        let stack := match stack.get? i with
          | some di => stack.set i { di with run_length := di.run_length - delimiters_used }
          | none => stack
        let stack := match stack.get? j with
          | some dj' => stack.set j { dj' with run_length := dj'.run_length - delimiters_used }
          | none => stack
        let stack := match stack.get? i with
          | some di => if di.run_length = 0 then stack.set i { di with active := false } else stack
          | none => stack
        let stack := match stack.get? j with
          | some dj' => if dj'.run_length = 0 then stack.set j { dj' with active := false } else stack
          | none => stack
        (elements, stack)

/- The inner loop `for j in (0..i).rev()`: the first argument counts the
remaining j values, so processing order is i-1, i-2, ..., 0. -/
def emphasis_inner_loop (i : Nat) (closer : Delimiter) :
    Nat → (List MdInlineElement × List Delimiter) → List MdInlineElement × List Delimiter
  | 0, st => st
  | j + 1, st => emphasis_inner_loop i closer j (emphasis_pair_step i j closer st)

/- The outer loop `for i in 0..delimiter_stack.len()`: the closer's
active/can_close test and its clone happen once per i, before the inner loop. -/
def emphasis_outer_loop :
    Nat → Nat → (List MdInlineElement × List Delimiter) → List MdInlineElement × List Delimiter
  | _, 0, st => st
  | i, n + 1, st =>
    let st' := match st.2.get? i with
      | none => st
      | some di => if di.active && di.can_close then emphasis_inner_loop i di i st else st
    emphasis_outer_loop (i + 1) n st'

/- The final pass of resolve_emphasis: every still-active delimiter's
placeholder (when its recorded index is in bounds) becomes literal Text of a
single delimiter character. -/
def emphasis_cleanup (stack : List Delimiter) (elements : List MdInlineElement) :
    List MdInlineElement :=
  stack.foldl
    (fun els d =>
      if d.active ∧ d.parsed_position < els.length then
        els.set d.parsed_position (MdInlineElement.Text d.ch.toString)
      else els)
    elements

/- resolve_emphasis of src/parser.rs.  A single-delimiter stack short-circuits
to replacing its placeholder with one literal character and skips the cleanup
pass (the source returns early). -/
def resolve_emphasis (elements : List MdInlineElement) (delimiter_stack : List Delimiter) :
    List MdInlineElement × List Delimiter :=
  if delimiter_stack.length = 1 then
    match delimiter_stack.get? 0 with
    | some d0 =>
      if d0.active then
        (elements.set d0.parsed_position (MdInlineElement.Text d0.ch.toString), delimiter_stack)
      else (elements, delimiter_stack)
    | none => (elements, delimiter_stack)
  else
    let st := emphasis_outer_loop 0 delimiter_stack.length (elements, delimiter_stack)
    (emphasis_cleanup st.2 st.1, st.2)

/- The per-token rendering of parse_code_span (src/parser.rs 424-451).  The
CodeFence arm of the source is an explicit no-op; the CodeTick value is never
used (the loop stops there).  The source match omits TableCellSeparator,
BlockQuoteMarker and RawHtmlTag (they are unreachable from the tokenizer,
c10_no_unreachable_variants); the model maps them to the no-op. -/
def code_span_token_str : Token → String
  | Token.Text s => s
  | Token.Punctuation s => s
  | Token.OrderedListMarker s => s
  | Token.Escape c => "\\" ++ c
  | Token.OpenParenthesis => "("
  | Token.CloseParenthesis => ")"
  | Token.OpenBracket => "["
  | Token.CloseBracket => "]"
  | Token.EmphasisRun delimiter length => String.join (List.replicate length delimiter.toString)
  | Token.Whitespace => " "
  | Token.Tab => "    "
  | Token.Newline => "\n"
  | Token.ThematicBreak => "---"
  | _ => ""

/- parse_code_span of src/parser.rs: starting at `pos`, consume tokens until a
CodeTick (or the end), rendering each back to literal text; the returned
position is the cursor position after the loop (on the CodeTick, or at the
end). -/
def parse_code_span (toks : List Token) (pos : Nat) : String × Nat :=
  let seg := (toks.drop pos).takeWhile (fun t => !(t == Token.CodeTick))
  ((seg.map code_span_token_str).foldl (· ++ ·) "", pos + seg.length)

/- The label loop of parse_link_type (src/parser.rs 474-503): accumulate label
elements, buffer and a local delimiter stack until a CloseBracket (cursor
stays on it, buffer flushed) or the end of input (buffer dropped, as in the
source, where the break path alone flushes it). -/
def link_label_loop :
    List Token → Nat → List MdInlineElement → String → List Delimiter →
    List MdInlineElement × List Delimiter × Nat
  | [], pos, elements, _buffer, stack => (elements, stack, pos)
  | t :: rest, pos, elements, buffer, stack =>
    match t with
    | Token.CloseBracket => (push_buffer_inline elements buffer, stack, pos)
    | Token.EmphasisRun delimiter length =>
      let elements' := push_buffer_inline elements buffer
      link_label_loop rest (pos + 1) (elements' ++ [MdInlineElement.Placeholder]) ""
        (stack ++ [⟨delimiter, length, pos, elements'.length, true, true, true⟩])
    | Token.Text s => link_label_loop rest (pos + 1) elements (buffer ++ s) stack
    | Token.Punctuation s => link_label_loop rest (pos + 1) elements (buffer ++ s) stack
    | Token.OrderedListMarker s => link_label_loop rest (pos + 1) elements (buffer ++ s) stack
    | Token.Escape c => link_label_loop rest (pos + 1) elements (buffer ++ "\\" ++ c) stack
    | Token.Whitespace => link_label_loop rest (pos + 1) elements (buffer ++ " ") stack
    | Token.ThematicBreak => link_label_loop rest (pos + 1) elements (buffer ++ "---") stack
    | Token.OpenParenthesis => link_label_loop rest (pos + 1) elements (buffer ++ "(") stack
    | Token.CloseParenthesis => link_label_loop rest (pos + 1) elements (buffer ++ ")") stack
    | _ => link_label_loop rest (pos + 1) elements buffer stack

/- The URI/title loop of parse_link_type (src/parser.rs 531-572).  State:
uri, title, is_building_title, is_valid_title, has_opening_quote; stops on a
CloseParenthesis (cursor stays on it) or at the end.  The source's title
match omits TableCellSeparator, BlockQuoteMarker and RawHtmlTag (unreachable
from the tokenizer); the model skips them. -/
def link_uri_loop :
    List Token → Nat → String → String → Bool → Bool → Bool →
    String × String × Bool × Nat
  | [], pos, uri, title, _building, is_valid_title, _hasq => (uri, title, is_valid_title, pos)
  | t :: rest, pos, uri, title, is_building_title, is_valid_title, has_opening_quote =>
    if !is_building_title then
      match t with
      | Token.CloseParenthesis => (uri, title, is_valid_title, pos)
      | Token.Text s =>
        link_uri_loop rest (pos + 1) (uri ++ s) title is_building_title is_valid_title
          has_opening_quote
      | Token.Punctuation s =>
        link_uri_loop rest (pos + 1) (uri ++ s) title is_building_title is_valid_title
          has_opening_quote
      | Token.OrderedListMarker s =>
        link_uri_loop rest (pos + 1) (uri ++ s) title is_building_title is_valid_title
          has_opening_quote
      | Token.Escape c =>
        link_uri_loop rest (pos + 1) (uri ++ "\\" ++ c) title is_building_title is_valid_title
          has_opening_quote
      | Token.Whitespace =>
        link_uri_loop rest (pos + 1) uri title true is_valid_title has_opening_quote
      | Token.ThematicBreak =>
        link_uri_loop rest (pos + 1) (uri ++ "---") title is_building_title is_valid_title
          has_opening_quote
      | _ => link_uri_loop rest (pos + 1) uri title is_building_title is_valid_title
          has_opening_quote
    else
      match t with
      | Token.CloseParenthesis => (uri, title, is_valid_title, pos)
      | Token.Punctuation s =>
        if s = "\"" then
          if has_opening_quote then
            link_uri_loop rest (pos + 1) uri title false true has_opening_quote
          else
            link_uri_loop rest (pos + 1) uri title is_building_title false true
        else
          link_uri_loop rest (pos + 1) uri (title ++ s) is_building_title is_valid_title
            has_opening_quote
      | Token.Text s =>
        link_uri_loop rest (pos + 1) uri (title ++ s) is_building_title is_valid_title
          has_opening_quote
      | Token.OrderedListMarker s =>
        link_uri_loop rest (pos + 1) uri (title ++ s) is_building_title is_valid_title
          has_opening_quote
      | Token.Escape c =>
        link_uri_loop rest (pos + 1) uri (title ++ "\\" ++ c) is_building_title is_valid_title
          has_opening_quote
      | Token.EmphasisRun delimiter length =>
        link_uri_loop rest (pos + 1) uri
          (title ++ String.join (List.replicate length delimiter.toString))
          is_building_title is_valid_title has_opening_quote
      | Token.OpenBracket =>
        link_uri_loop rest (pos + 1) uri (title ++ "[") is_building_title is_valid_title
          has_opening_quote
      | Token.CloseBracket =>
        link_uri_loop rest (pos + 1) uri (title ++ "]") is_building_title is_valid_title
          has_opening_quote
      | Token.OpenParenthesis =>
        link_uri_loop rest (pos + 1) uri (title ++ "(") is_building_title is_valid_title
          has_opening_quote
      | Token.Tab =>
        link_uri_loop rest (pos + 1) uri (title ++ "\t") is_building_title is_valid_title
          has_opening_quote
      | Token.Newline =>
        link_uri_loop rest (pos + 1) uri (title ++ "\\n") is_building_title is_valid_title
          has_opening_quote
      | Token.Whitespace =>
        link_uri_loop rest (pos + 1) uri (title ++ " ") is_building_title is_valid_title
          has_opening_quote
      | Token.CodeTick =>
        link_uri_loop rest (pos + 1) uri (title ++ "`") is_building_title is_valid_title
          has_opening_quote
      | Token.CodeFence =>
        link_uri_loop rest (pos + 1) uri (title ++ "```") is_building_title is_valid_title
          has_opening_quote
      | Token.ThematicBreak =>
        link_uri_loop rest (pos + 1) uri (title ++ "---") is_building_title is_valid_title
          has_opening_quote
      | _ => link_uri_loop rest (pos + 1) uri title is_building_title is_valid_title
          has_opening_quote

/- parse_link_type of src/parser.rs: the cursor starts on the OpenBracket (it
is skipped by the label loop's catch-all); returns the element and the final
cursor position (on the closing token, or at the end for the unterminated
fallbacks).  The unterminated-parenthesis fallback reproduces the source's
format string "[{label}]({uri} " with its trailing space. -/
def parse_link_type (mk : List MdInlineElement → Option String → String → MdInlineElement)
    (toks : List Token) (pos : Nat) : MdInlineElement × Nat :=
  let r1 := link_label_loop (toks.drop pos) pos [] "" []
  let label_elements := (resolve_emphasis r1.1 r1.2.1).1
  let pos1 := r1.2.2
  if !(toks.get? pos1 == some Token.CloseBracket) then
    (MdInlineElement.Text ("[" ++ flatten_inline_list label_elements), pos1)
  else if !(toks.get? (pos1 + 1) == some Token.OpenParenthesis) then
    (MdInlineElement.Text ("[" ++ flatten_inline_list label_elements ++ "]"), pos1 + 1)
  else
    let r2 := link_uri_loop (toks.drop (pos1 + 1)) (pos1 + 1) "" "" false true false
    let uri := r2.1
    let title := r2.2.1
    let is_valid_title := r2.2.2.1
    let pos2 := r2.2.2.2
    if !(toks.get? pos2 == some Token.CloseParenthesis) then
      (MdInlineElement.Text ("[" ++ flatten_inline_list label_elements ++ "](" ++ uri ++ " "),
        pos2)
    else if !title.isEmpty && !is_valid_title then
      (MdInlineElement.Text
        ("[" ++ flatten_inline_list label_elements ++ "](" ++ uri ++ " " ++ title ++ ")"),
        pos2)
    else
      (mk label_elements (if title.isEmpty then none else some title) uri, pos2)

/- The main loop of parse_inline (src/parser.rs 318-400), fuel-bounded: every
iteration advances the cursor by at least one position, so fuel
toks.length + 1 never runs out.  Returns elements, buffer and the delimiter
stack at loop exit. -/
def parse_inline_loop (toks : List Token) :
    Nat → Nat → List MdInlineElement → String → List Delimiter →
    List MdInlineElement × String × List Delimiter
  | 0, _pos, elements, buffer, stack => (elements, buffer, stack)
  | fuel + 1, pos, elements, buffer, stack =>
    match toks.get? pos with
    | none => (elements, buffer, stack)
    | some t =>
      match t with
      | Token.EmphasisRun delimiter length =>
        let elements' := push_buffer_inline elements buffer
        parse_inline_loop toks fuel (pos + 1) (elements' ++ [MdInlineElement.Placeholder]) ""
          (stack ++ [⟨delimiter, length, pos, elements'.length, true, true, true⟩])
      | Token.OpenBracket =>
        let elements' := push_buffer_inline elements buffer
        let r := parse_link_type
          (fun label title url => MdInlineElement.Link label title url) toks pos
        parse_inline_loop toks fuel (r.2 + 1) (elements' ++ [r.1]) "" stack
      | Token.CodeTick =>
        let elements' := push_buffer_inline elements buffer
        let r := parse_code_span toks (pos + 1)
        let element :=
          if !(toks.get? r.2 == some Token.CodeTick) then
            MdInlineElement.Text ("`" ++ r.1 ++ "`")
          else
            MdInlineElement.Code r.1
        parse_inline_loop toks fuel (r.2 + 1) (elements' ++ [element]) "" stack
      | Token.Punctuation s =>
        if s = "!" then
          if !(toks.get? (pos + 1) == some Token.OpenBracket) then
            parse_inline_loop toks fuel (pos + 1) elements (buffer ++ "!") stack
          else
            let elements' := push_buffer_inline elements buffer
            let r := parse_link_type
              (fun label title url => MdInlineElement.Image (flatten_inline_list label) title url)
              toks (pos + 1)
            parse_inline_loop toks fuel (r.2 + 1) (elements' ++ [r.1]) "" stack
        else
          parse_inline_loop toks fuel (pos + 1) elements (buffer ++ s) stack
      | Token.Escape esc_char =>
        parse_inline_loop toks fuel (pos + 1) elements (buffer ++ "\\" ++ esc_char) stack
      | Token.Text s =>
        parse_inline_loop toks fuel (pos + 1) elements (buffer ++ s) stack
      | Token.OrderedListMarker s =>
        parse_inline_loop toks fuel (pos + 1) elements (buffer ++ s) stack
      | Token.Whitespace =>
        parse_inline_loop toks fuel (pos + 1) elements (buffer ++ " ") stack
      | Token.CloseBracket =>
        parse_inline_loop toks fuel (pos + 1) elements (buffer ++ "]") stack
      | Token.OpenParenthesis =>
        parse_inline_loop toks fuel (pos + 1) elements (buffer ++ "(") stack
      | Token.CloseParenthesis =>
        parse_inline_loop toks fuel (pos + 1) elements (buffer ++ ")") stack
      | Token.ThematicBreak =>
        parse_inline_loop toks fuel (pos + 1) elements (buffer ++ "---") stack
      | _ =>
        parse_inline_loop toks fuel (pos + 1) (push_buffer_inline elements buffer) "" stack

/- parse_inline of src/parser.rs: run the loop, flush the buffer, classify
every delimiter's flanking against the full token sequence, then resolve
emphasis. -/
def parse_inline (markdown_tokens : List Token) : List MdInlineElement :=
  let r := parse_inline_loop markdown_tokens (markdown_tokens.length + 1) 0 [] "" []
  let elements := push_buffer_inline r.1 r.2.1
  let stack := (r.2.2).map (classify_flanking markdown_tokens)
  (resolve_emphasis elements stack).1

/- The grapheme list of an ASCII string (for ASCII text, grapheme clusters
are single characters). -/
def ascii_graphemes (s : String) : List String :=
  s.data.map Char.toString

set_option maxRecDepth 10000

/- Validation of the embedding against the repository's own parser test
fixtures (src/parser/test.rs, mod inline). -/
example :
    (tokenize ascii_punctuation (ascii_graphemes "Plain text.")).map parse_inline =
      some [MdInlineElement.Text "Plain text."] := by rfl

example :
    (tokenize ascii_punctuation (ascii_graphemes "**Bold** text")).map parse_inline =
      some [MdInlineElement.Bold [MdInlineElement.Text "Bold"],
        MdInlineElement.Text " text"] := by rfl

example :
    (tokenize ascii_punctuation (ascii_graphemes "*Italic* text")).map parse_inline =
      some [MdInlineElement.Italic [MdInlineElement.Text "Italic"],
        MdInlineElement.Text " text"] := by rfl

example :
    (tokenize ascii_punctuation (ascii_graphemes "**_Bold and italic._**")).map parse_inline =
      some [MdInlineElement.Bold [MdInlineElement.Italic
        [MdInlineElement.Text "Bold and italic."]]] := by rfl

example :
    (tokenize ascii_punctuation (ascii_graphemes "[link text](http://example.com)")).map
        parse_inline =
      some [MdInlineElement.Link [MdInlineElement.Text "link text"] none
        "http://example.com"] := by rfl

example :
    (tokenize ascii_punctuation (ascii_graphemes "This is `inline code`.")).map parse_inline =
      some [MdInlineElement.Text "This is ", MdInlineElement.Code "inline code",
        MdInlineElement.Text "."] := by rfl

example :
    (tokenize ascii_punctuation (ascii_graphemes "_Italic **and bold**_")).map parse_inline =
      some [MdInlineElement.Italic [MdInlineElement.Text "Italic ",
        MdInlineElement.Bold [MdInlineElement.Text "and bold"]]] := by rfl

example :
    (tokenize ascii_punctuation (ascii_graphemes "![alt text](http://e.com/i.png)")).map
        parse_inline =
      some [MdInlineElement.Image "alt text" none "http://e.com/i.png"] := by rfl

/-- C2 is the spec's intent but the code violates it: on the tokenization of
"*a _b* c" the asterisk pair is resolved around the underscore's placeholder,
which is spliced into the Italic's content where the final cleanup pass (which
only rewrites top-level indices) cannot reach it, so parse_inline returns a
tree that still contains a Placeholder. -/
theorem c2_placeholder_leak :
    tokenize ascii_punctuation (ascii_graphemes "*a _b* c") =
      some [Token.EmphasisRun '*' 1, Token.Text "a", Token.Whitespace,
        Token.EmphasisRun '_' 1, Token.Text "b", Token.EmphasisRun '*' 1,
        Token.Whitespace, Token.Text "c"] ∧
    parse_inline [Token.EmphasisRun '*' 1, Token.Text "a", Token.Whitespace,
        Token.EmphasisRun '_' 1, Token.Text "b", Token.EmphasisRun '*' 1,
        Token.Whitespace, Token.Text "c"] =
      [MdInlineElement.Italic [MdInlineElement.Text "a ", MdInlineElement.Placeholder,
        MdInlineElement.Text "b"], MdInlineElement.Text " c"] ∧
    contains_placeholder_list (parse_inline [Token.EmphasisRun '*' 1, Token.Text "a",
        Token.Whitespace, Token.EmphasisRun '_' 1, Token.Text "b", Token.EmphasisRun '*' 1,
        Token.Whitespace, Token.Text "c"]) = true :=
  ⟨rfl, rfl, rfl⟩

/- The claim's wording of the rule-of-three condition, as a predicate on the
two delimiters, to compare with the source's rule_of_three_rejects. -/
def rule_of_three_claim (closer opener : Delimiter) : Prop :=
  ((closer.can_open = true ∧ closer.can_close = true) ∨
    (opener.can_open = true ∧ opener.can_close = true)) ∧
  (closer.run_length + opener.run_length) % 3 = 0 ∧
  closer.run_length % 3 ≠ 0 ∧ opener.run_length % 3 ≠ 0

/-- C3's concrete half is false: parsing the tokenization of
"***bold + italic***" yields [Text "*", Bold []] — no Bold-wrapping-Italic
indeed, but the inner text "bold + italic" is dropped entirely (flattened
output "*") instead of surviving as inner plain text. -/
theorem c3_counterexample :
    tokenize ascii_punctuation (ascii_graphemes "***bold + italic***") =
      some [Token.EmphasisRun '*' 3, Token.Text "bold", Token.Whitespace, Token.Text "+",
        Token.Whitespace, Token.Text "italic", Token.EmphasisRun '*' 3] ∧
    parse_inline [Token.EmphasisRun '*' 3, Token.Text "bold", Token.Whitespace,
        Token.Text "+", Token.Whitespace, Token.Text "italic", Token.EmphasisRun '*' 3] =
      [MdInlineElement.Text "*", MdInlineElement.Bold []] ∧
    flatten_inline_list (parse_inline [Token.EmphasisRun '*' 3, Token.Text "bold",
        Token.Whitespace, Token.Text "+", Token.Whitespace, Token.Text "italic",
        Token.EmphasisRun '*' 3]) = "*" :=
  ⟨rfl, rfl, rfl⟩

/-- C3 (amended): resolve_emphasis skips an opener/closer pair exactly under
the claimed rule-of-three condition (either delimiter can both open and
close, the run lengths sum to a multiple of 3, and neither length is itself
divisible by 3); on "***bold + italic***" neither run is both-opening-and-
closing, so the rule does not apply, the pair is consumed as a Bold match,
and the output is [Text "*", Bold []] — not a single Bold wrapping an Italic,
but with the inner text dropped rather than kept as plain text. -/
theorem c3_rule_of_three_amended :
    (∀ closer opener : Delimiter,
      rule_of_three_rejects closer opener = true ↔ rule_of_three_claim closer opener) ∧
    parse_inline [Token.EmphasisRun '*' 3, Token.Text "bold", Token.Whitespace,
        Token.Text "+", Token.Whitespace, Token.Text "italic", Token.EmphasisRun '*' 3] =
      [MdInlineElement.Text "*", MdInlineElement.Bold []] ∧
    (∀ inner, parse_inline [Token.EmphasisRun '*' 3, Token.Text "bold", Token.Whitespace,
        Token.Text "+", Token.Whitespace, Token.Text "italic", Token.EmphasisRun '*' 3] ≠
      [MdInlineElement.Bold [MdInlineElement.Italic inner]]) := by
  refine ⟨?_, rfl, ?_⟩
  · intro closer opener
    simp only [rule_of_three_rejects, rule_of_three_claim, Bool.and_eq_true,
      Bool.or_eq_true, beq_iff_eq, Bool.not_eq_eq_eq_not, Bool.not_true, and_assoc]
    constructor
    · intro ⟨h1, h2, h3, h4⟩
      exact ⟨h1, h2, by simpa using h3, by simpa using h4⟩
    · intro ⟨h1, h2, h3, h4⟩
      exact ⟨h1, h2, by simpa using h3, by simpa using h4⟩
  · intro inner h
    rw [show parse_inline [Token.EmphasisRun '*' 3, Token.Text "bold", Token.Whitespace,
        Token.Text "+", Token.Whitespace, Token.Text "italic", Token.EmphasisRun '*' 3] =
      [MdInlineElement.Text "*", MdInlineElement.Bold []] from rfl] at h
    simp at h

/- Tokens that parse_inline only appends to its text buffer (every arm of the
source's match that does buffer.push_*), together with the text each appends.
Punctuation includes "!" because with no following OpenBracket the image
branch also just buffers the character. -/
def plain_token : Token → Bool
  | Token.Text _ | Token.Punctuation _ | Token.OrderedListMarker _ | Token.Escape _
  | Token.Whitespace | Token.CloseBracket | Token.OpenParenthesis
  | Token.CloseParenthesis | Token.ThematicBreak => true
  | _ => false

def plain_token_str : Token → String
  | Token.Text s => s
  | Token.Punctuation s => s
  | Token.OrderedListMarker s => s
  | Token.Escape c => "\\" ++ c
  | Token.Whitespace => " "
  | Token.CloseBracket => "]"
  | Token.OpenParenthesis => "("
  | Token.CloseParenthesis => ")"
  | Token.ThematicBreak => "---"
  | _ => ""

def render_plain : List Token → String
  | [] => ""
  | t :: rest => plain_token_str t ++ render_plain rest

lemma parse_inline_loop_exit (toks : List Token) (fuel pos : Nat)
    (els : List MdInlineElement) (buf : String) (stk : List Delimiter)
    (hpos : toks.length ≤ pos) (hfuel : 0 < fuel) :
    parse_inline_loop toks fuel pos els buf stk = (els, buf, stk) := by
  cases fuel with
  | zero => omega
  | succ fuel =>
    simp only [parse_inline_loop, List.get?_eq_none.mpr hpos]

lemma drop_eq_cons_parts {α : Type} {toks : List α} {pos : Nat} {t : α} {rest : List α}
    (h : toks.drop pos = t :: rest) :
    toks.get? pos = some t ∧ toks.drop (pos + 1) = rest := by
  constructor
  · have := List.get?_drop toks pos 0
    rw [h] at this
    simpa using this.symm
  · have := List.drop_drop 1 pos toks
    rw [h] at this
    simpa [Nat.add_comm] using this.symm

lemma get?_head_of_drop {α : Type} {toks : List α} {pos : Nat} {rest : List α}
    (h : toks.drop pos = rest) : toks.get? pos = rest.head? := by
  have h0 := List.get?_drop toks pos 0
  rw [h] at h0
  cases rest with
  | nil => exact h0.symm
  | cons t rest' => exact h0.symm

/- On a run of buffer-only tokens, the parse_inline loop just appends their
literal text to the buffer. -/
lemma parse_inline_loop_plain (toks : List Token) :
    ∀ (rest : List Token) (fuel pos : Nat) (els : List MdInlineElement) (buf : String)
      (stk : List Delimiter),
      toks.drop pos = rest → rest.all plain_token = true → rest.length < fuel →
      parse_inline_loop toks fuel pos els buf stk = (els, buf ++ render_plain rest, stk) := by
  intro rest
  induction rest with
  | nil =>
    intro fuel pos els buf stk hdrop _ hfuel
    rw [parse_inline_loop_exit toks fuel pos els buf stk (List.drop_eq_nil_iff.mp hdrop)
      (by omega)]
    rw [render_plain, String.append_empty]
  | cons t rest' ih =>
    intro fuel pos els buf stk hdrop hall hfuel
    obtain ⟨hget, hdrop'⟩ := drop_eq_cons_parts hdrop
    obtain ⟨hpt, hall'⟩ : plain_token t = true ∧ rest'.all plain_token = true := by
      simpa [List.all_cons] using hall
    cases fuel with
    | zero => omega
    | succ fuel =>
      have hfuel' : rest'.length < fuel := by
        simp only [List.length_cons] at hfuel; omega
      cases t with
      | Text s =>
        simp only [parse_inline_loop, hget]
        rw [ih fuel (pos + 1) els (buf ++ s) stk hdrop' hall' hfuel']
        rw [render_plain, plain_token_str, String.append_assoc]
      | Punctuation s =>
        simp only [parse_inline_loop, hget]
        by_cases hs : s = "!"
        · subst hs
          rw [if_pos rfl]
          have hnb : ¬(toks.get? (pos + 1) == some Token.OpenBracket) = true := by
            rw [get?_head_of_drop hdrop']
            cases rest' with
            | nil => simp
            | cons u rest'' =>
              obtain ⟨hu, _⟩ : plain_token u = true ∧ rest''.all plain_token = true := by
                simpa [List.all_cons] using hall'
              cases u <;> simp_all [plain_token]
          rw [if_pos (by simpa using hnb)]
          rw [ih fuel (pos + 1) els (buf ++ "!") stk hdrop' hall' hfuel']
          rw [render_plain, plain_token_str, String.append_assoc]
        · rw [if_neg hs]
          rw [ih fuel (pos + 1) els (buf ++ s) stk hdrop' hall' hfuel']
          rw [render_plain, plain_token_str, String.append_assoc]
      | OrderedListMarker s =>
        simp only [parse_inline_loop, hget]
        rw [ih fuel (pos + 1) els (buf ++ s) stk hdrop' hall' hfuel']
        rw [render_plain, plain_token_str, String.append_assoc]
      | Escape c =>
        simp only [parse_inline_loop, hget]
        rw [ih fuel (pos + 1) els (buf ++ "\\" ++ c) stk hdrop' hall' hfuel']
        rw [render_plain, plain_token_str]
        simp only [String.append_assoc]
      | Whitespace =>
        simp only [parse_inline_loop, hget]
        rw [ih fuel (pos + 1) els (buf ++ " ") stk hdrop' hall' hfuel']
        rw [render_plain, plain_token_str, String.append_assoc]
      | CloseBracket =>
        simp only [parse_inline_loop, hget]
        rw [ih fuel (pos + 1) els (buf ++ "]") stk hdrop' hall' hfuel']
        rw [render_plain, plain_token_str, String.append_assoc]
      | OpenParenthesis =>
        simp only [parse_inline_loop, hget]
        rw [ih fuel (pos + 1) els (buf ++ "(") stk hdrop' hall' hfuel']
        rw [render_plain, plain_token_str, String.append_assoc]
      | CloseParenthesis =>
        simp only [parse_inline_loop, hget]
        rw [ih fuel (pos + 1) els (buf ++ ")") stk hdrop' hall' hfuel']
        rw [render_plain, plain_token_str, String.append_assoc]
      | ThematicBreak =>
        simp only [parse_inline_loop, hget]
        rw [ih fuel (pos + 1) els (buf ++ "---") stk hdrop' hall' hfuel']
        rw [render_plain, plain_token_str, String.append_assoc]
      | EmphasisRun d n => simp [plain_token] at hpt
      | OpenBracket => simp [plain_token] at hpt
      | CodeTick => simp [plain_token] at hpt
      | CodeFence => simp [plain_token] at hpt
      | Tab => simp [plain_token] at hpt
      | Newline => simp [plain_token] at hpt
      | TableCellSeparator => simp [plain_token] at hpt
      | BlockQuoteMarker => simp [plain_token] at hpt
      | RawHtmlTag s => simp [plain_token] at hpt

lemma classify_flanking_fields (tokens : List Token) (dl : Delimiter) :
    (classify_flanking tokens dl).active = dl.active ∧
    (classify_flanking tokens dl).parsed_position = dl.parsed_position ∧
    (classify_flanking tokens dl).ch = dl.ch := by
  simp only [classify_flanking]
  split <;> simp

/-- C8 (amended): a single delimiter run with no matching pair degrades to
literal text, but only ONE delimiter character survives regardless of the
run's length: the flattened output is a single delimiter character followed by
the remaining (plain) text. -/
theorem c8_degrade_amended :
    ∀ (d : Char) (n : Nat) (rest : List Token),
      rest.all plain_token = true →
      flatten_inline_list (parse_inline (Token.EmphasisRun d n :: rest)) =
        d.toString ++ render_plain rest := by
  intro d n rest hplain
  have hstep : parse_inline_loop (Token.EmphasisRun d n :: rest) (rest.length + 1 + 1) 0 [] "" [] =
      parse_inline_loop (Token.EmphasisRun d n :: rest) (rest.length + 1) 1
        [MdInlineElement.Placeholder] "" [⟨d, n, 0, 0, true, true, true⟩] := rfl
  unfold parse_inline
  rw [show (Token.EmphasisRun d n :: rest).length + 1 = rest.length + 1 + 1 from by simp]
  rw [hstep]
  rw [parse_inline_loop_plain (Token.EmphasisRun d n :: rest) rest (rest.length + 1) 1
    [MdInlineElement.Placeholder] "" [⟨d, n, 0, 0, true, true, true⟩] rfl hplain (by omega)]
  simp only [String.empty_append, List.map_cons, List.map_nil]
  obtain ⟨hact, hpp, hch⟩ :=
    classify_flanking_fields (Token.EmphasisRun d n :: rest) ⟨d, n, 0, 0, true, true, true⟩
  unfold resolve_emphasis
  rw [if_pos (show ([classify_flanking (Token.EmphasisRun d n :: rest)
      ⟨d, n, 0, 0, true, true, true⟩] : List Delimiter).length = 1 from rfl)]
  simp only [List.get?]
  rw [if_pos hact, hpp, hch]
  unfold push_buffer_inline
  by_cases hre : (render_plain rest).isEmpty
  · rw [if_pos hre, (String.isEmpty_iff (render_plain rest)).mp hre]
    rfl
  · rw [if_neg hre]
    show d.toString ++ (render_plain rest ++ "") = d.toString ++ render_plain rest
    rw [String.append_empty]

def render_code : List Token → String
  | [] => ""
  | t :: rest => code_span_token_str t ++ render_code rest

lemma code_fold_eq_render :
    ∀ (ts : List Token) (acc : String),
      (ts.map code_span_token_str).foldl (· ++ ·) acc = acc ++ render_code ts := by
  intro ts
  induction ts with
  | nil => intro acc; rw [render_code, String.append_empty]; rfl
  | cons t rest ih =>
    intro acc
    simp only [List.map_cons, List.foldl_cons]
    rw [ih (acc ++ code_span_token_str t), render_code, String.append_assoc]

lemma parse_code_span_all (rest : List Token)
    (hall : rest.all (fun t => !(t == Token.CodeTick)) = true) :
    parse_code_span (Token.CodeTick :: rest) 1 = (render_code rest, 1 + rest.length) := by
  unfold parse_code_span
  have hseg : ((Token.CodeTick :: rest).drop 1).takeWhile (fun t => !(t == Token.CodeTick)) =
      rest :=
    List.takeWhile_eq_self_iff.mpr (by simpa [List.all_eq_true] using hall)
  rw [hseg]
  show ((rest.map code_span_token_str).foldl (· ++ ·) "", 1 + rest.length) =
    (render_code rest, 1 + rest.length)
  rw [code_fold_eq_render rest "", String.empty_append]

lemma parse_code_span_pre (pre : List Token)
    (hall : pre.all (fun t => !(t == Token.CodeTick)) = true) :
    parse_code_span (Token.CodeTick :: (pre ++ [Token.CodeTick])) 1 =
      (render_code pre, 1 + pre.length) := by
  unfold parse_code_span
  have hseg : ((Token.CodeTick :: (pre ++ [Token.CodeTick])).drop 1).takeWhile
      (fun t => !(t == Token.CodeTick)) = pre := by
    show (pre ++ [Token.CodeTick]).takeWhile (fun t => !(t == Token.CodeTick)) = pre
    rw [List.takeWhile_append_of_pos (by simpa [List.all_eq_true] using hall)]
    simp
  rw [hseg]
  show ((pre.map code_span_token_str).foldl (· ++ ·) "", 1 + pre.length) =
    (render_code pre, 1 + pre.length)
  rw [code_fold_eq_render pre "", String.empty_append]

lemma parse_inline_code_span_unmatched :
    ∀ rest : List Token, rest.all (fun t => !(t == Token.CodeTick)) = true →
      parse_inline (Token.CodeTick :: rest) =
        [MdInlineElement.Text ("`" ++ render_code rest ++ "`")] := by
  intro rest hall
  have hnone : (Token.CodeTick :: rest).get? (1 + rest.length) = none :=
    List.get?_eq_none.mpr (by simp [Nat.add_comm])
  have hstep : parse_inline_loop (Token.CodeTick :: rest) (rest.length + 1 + 1) 0 [] "" [] =
      parse_inline_loop (Token.CodeTick :: rest) (rest.length + 1) ((1 + rest.length) + 1)
        [MdInlineElement.Text ("`" ++ render_code rest ++ "`")] "" [] := by
    simp only [parse_inline_loop, List.get?, Nat.zero_add, parse_code_span_all rest hall, hnone]
    rfl
  unfold parse_inline
  rw [show (Token.CodeTick :: rest).length + 1 = rest.length + 1 + 1 from by simp]
  rw [hstep]
  rw [parse_inline_loop_exit _ (rest.length + 1) ((1 + rest.length) + 1) _ _ _
    (by simp only [List.length_cons]; omega) (by omega)]
  rfl

lemma parse_inline_code_span_matched :
    ∀ pre : List Token, pre.all (fun t => !(t == Token.CodeTick)) = true →
      parse_inline (Token.CodeTick :: (pre ++ [Token.CodeTick])) =
        [MdInlineElement.Code (render_code pre)] := by
  intro pre hall
  have hsome : (Token.CodeTick :: (pre ++ [Token.CodeTick])).get? (1 + pre.length) =
      some Token.CodeTick := by
    rw [Nat.add_comm, List.get?_cons_succ]
    exact List.get?_concat_length pre Token.CodeTick
  have hstep : parse_inline_loop (Token.CodeTick :: (pre ++ [Token.CodeTick]))
      ((pre.length + 1) + 1 + 1) 0 [] "" [] =
      parse_inline_loop (Token.CodeTick :: (pre ++ [Token.CodeTick])) ((pre.length + 1) + 1)
        ((1 + pre.length) + 1) [MdInlineElement.Code (render_code pre)] "" [] := by
    simp only [parse_inline_loop, List.get?, Nat.zero_add, parse_code_span_pre pre hall, hsome]
    rfl
  unfold parse_inline
  rw [show (Token.CodeTick :: (pre ++ [Token.CodeTick])).length + 1 =
    (pre.length + 1) + 1 + 1 from by simp]
  rw [hstep]
  rw [parse_inline_loop_exit _ ((pre.length + 1) + 1) ((1 + pre.length) + 1) _ _ _
    (by simp only [List.length_cons, List.length_append, List.length_nil]; omega) (by omega)]
  rfl

/-- C8 as stated is false for runs longer than one character: the tokenization
of "**lonely" parses to [Text "*", Text "lonely"], whose flattened text
"*lonely" lost one of the two asterisks of the run. -/
theorem c8_counterexample :
    tokenize ascii_punctuation (ascii_graphemes "**lonely") =
      some [Token.EmphasisRun '*' 2, Token.Text "lonely"] ∧
    parse_inline [Token.EmphasisRun '*' 2, Token.Text "lonely"] =
      [MdInlineElement.Text "*", MdInlineElement.Text "lonely"] ∧
    flatten_inline_list (parse_inline [Token.EmphasisRun '*' 2, Token.Text "lonely"]) =
      "*lonely" ∧
    ("*lonely" : String) ≠ "**lonely" :=
  ⟨rfl, rfl, rfl, by decide⟩

/-- Witness for the amended C8 at the tokenization of "**lonely": the run of
two asterisks collapses to one literal asterisk before the remaining text. -/
theorem c8_degrade_amended_witness :
    flatten_inline_list (parse_inline (Token.EmphasisRun '*' 2 :: [Token.Text "lonely"])) =
      Char.toString '*' ++ render_plain [Token.Text "lonely"] :=
  c8_degrade_amended '*' 2 [Token.Text "lonely"] rfl

/-- C6's fallback half is false as stated: on the unterminated code span
"`a" the output Text is "`a`" — a closing backtick is added, so the construct
does not reproduce the original source unchanged. -/
theorem c6_counterexample :
    tokenize ascii_punctuation (ascii_graphemes "`a") =
      some [Token.CodeTick, Token.Text "a"] ∧
    parse_inline [Token.CodeTick, Token.Text "a"] = [MdInlineElement.Text "`a`"] ∧
    ("`a`" : String) ≠ "`a" :=
  ⟨rfl, rfl, by decide⟩

/-- C6 (amended): on a CodeTick, if a matching CodeTick occurs later the
construct becomes one Code element whose content renders the intervening
tokens back to literal text (tabs as four spaces, newlines preserved,
emphasis runs and brackets literal, code fences dropped); if no matching
CodeTick exists the construct falls back to a Text element consisting of a
backtick, the rendered remaining tokens, and an ADDED closing backtick. -/
theorem c6_code_span_amended :
    (∀ rest : List Token, rest.all (fun t => !(t == Token.CodeTick)) = true →
      parse_inline (Token.CodeTick :: rest) =
        [MdInlineElement.Text ("`" ++ render_code rest ++ "`")]) ∧
    (∀ pre : List Token, pre.all (fun t => !(t == Token.CodeTick)) = true →
      parse_inline (Token.CodeTick :: (pre ++ [Token.CodeTick])) =
        [MdInlineElement.Code (render_code pre)]) ∧
    code_span_token_str Token.Tab = "    " ∧
    code_span_token_str Token.Newline = "\n" ∧
    (∀ d n, code_span_token_str (Token.EmphasisRun d n) =
      String.join (List.replicate n d.toString)) ∧
    code_span_token_str Token.OpenBracket = "[" ∧
    code_span_token_str Token.CloseBracket = "]" ∧
    code_span_token_str Token.CodeFence = "" :=
  ⟨parse_inline_code_span_unmatched, parse_inline_code_span_matched,
    rfl, rfl, fun _ _ => rfl, rfl, rfl, rfl⟩

/-- Witness for the amended C6 at "`a" (unmatched, extra backtick added) and
"`a`" (matched, Code element). -/
theorem c6_code_span_amended_witness :
    parse_inline [Token.CodeTick, Token.Text "a"] =
      [MdInlineElement.Text ("`" ++ render_code [Token.Text "a"] ++ "`")] ∧
    parse_inline (Token.CodeTick :: ([Token.Text "a"] ++ [Token.CodeTick])) =
      [MdInlineElement.Code (render_code [Token.Text "a"])] :=
  ⟨c6_code_span_amended.1 [Token.Text "a"] rfl,
    c6_code_span_amended.2.1 [Token.Text "a"] rfl⟩

/- TableAlignment of src/types.rs. -/
inductive TableAlignment where
  | Left
  | Center
  | Right
  | None
  deriving Repr, DecidableEq

/- MdTableCell of src/types.rs. -/
structure MdTableCell where
  content : List MdInlineElement
  alignment : TableAlignment
  is_header : Bool
  deriving Repr

/- MdBlockElement and MdListItem of src/types.rs (a list item wraps one
nested block element). -/
mutual
inductive MdBlockElement where
  | Header (level : Nat) (content : List MdInlineElement)
  | Paragraph (content : List MdInlineElement)
  | CodeBlock (language : Option String) (lines : List String)
  | ThematicBreak
  | UnorderedList (items : List MdListItem)
  | OrderedList (items : List MdListItem)
  | Table (headers : List MdTableCell) (body : List (List MdTableCell))
  | BlockQuote (content : List MdBlockElement)
  | RawHtml (content : String)

inductive MdListItem where
  | mk (content : MdBlockElement)
end

/- push_buffer_to_collection at type Vec<String> (From<String> is the
identity): used by parse_codeblock. -/
def push_buffer_lines (content : List String) (buffer : String) : List String :=
  if buffer.isEmpty then content else content ++ [buffer]

/- Vec::split(|t| t == Newline) of parse_list: split on every Newline,
keeping empty segments. -/
def split_on_newline : List Token → List (List Token)
  | [] => [[]]
  | t :: rest =>
    if t = Token.Newline then [] :: split_on_newline rest
    else
      match split_on_newline rest with
      | [] => [[t]]
      | g :: gs => (t :: g) :: gs

/- The is_list_item predicate passed by parse_unordered_list. -/
def is_unordered_list_item (tokens : List Token) : Bool :=
  match tokens.head? with
  | some (Token.Punctuation s) => s = "-" ∧ tokens.get? 1 = some Token.Whitespace
  | _ => false

/- The is_list_item predicate passed by parse_ordered_list. -/
def is_ordered_list_item (tokens : List Token) : Bool :=
  match tokens.head? with
  | some (Token.OrderedListMarker _) => tokens.get? 1 = some Token.Whitespace
  | _ => false

/- The leading-# counting loop of parse_heading. -/
def heading_level_count : List Token → Nat
  | [] => 0
  | t :: rest =>
    match t with
    | Token.Punctuation s => if s = "#" then heading_level_count rest + 1 else 0
    | _ => 0

/- parse_heading of src/parser.rs: count leading '#'; if the next token is
not Whitespace (or the line ended), fall back to a Paragraph. -/
def parse_heading (line : List Token) : MdBlockElement :=
  let heading_level := heading_level_count line
  let i := heading_level
  if i ≥ line.length ∨ ¬(line.get? i = some Token.Whitespace) then
    MdBlockElement.Paragraph (parse_inline line)
  else
    MdBlockElement.Header heading_level (parse_inline (line.drop (i + 1)))

/- The literal-reconstruction loop of parse_codeblock (indices 2.. of the
line, stopping at a CodeFence). -/
def parse_codeblock_go : List Token → String → List String → List String
  | [], buffer, code_content => push_buffer_lines code_content buffer
  | t :: rest, buffer, code_content =>
    match t with
    | Token.CodeFence => push_buffer_lines code_content buffer
    | Token.Text s => parse_codeblock_go rest (buffer ++ s) code_content
    | Token.Punctuation s => parse_codeblock_go rest (buffer ++ s) code_content
    | Token.OrderedListMarker s => parse_codeblock_go rest (buffer ++ s) code_content
    | Token.Whitespace => parse_codeblock_go rest (buffer ++ " ") code_content
    | Token.Newline => parse_codeblock_go rest (buffer ++ "\n") code_content
    | Token.ThematicBreak => parse_codeblock_go rest (buffer ++ "---") code_content
    | Token.Escape c => parse_codeblock_go rest (buffer ++ "\\" ++ c) code_content
    | Token.CodeTick => parse_codeblock_go rest (buffer ++ "`") code_content
    | Token.OpenParenthesis => parse_codeblock_go rest (buffer ++ "(") code_content
    | Token.CloseParenthesis => parse_codeblock_go rest (buffer ++ ")") code_content
    | Token.OpenBracket => parse_codeblock_go rest (buffer ++ "[") code_content
    | Token.CloseBracket => parse_codeblock_go rest (buffer ++ "]") code_content
    | Token.EmphasisRun delimiter length =>
      parse_codeblock_go rest (buffer ++ String.join (List.replicate length delimiter.toString))
        code_content
    | _ => parse_codeblock_go rest buffer code_content

/- parse_codeblock of src/parser.rs: optional language from token index 1,
content reconstructed from index 2 onwards. -/
def parse_codeblock (line : List Token) : MdBlockElement :=
  let language := match line.get? 1 with
    | some (Token.Text s) => some s
    | _ => none
  MdBlockElement.CodeBlock language (parse_codeblock_go (line.drop 2) "" [])

/- parse_block and the generic parse_list of src/parser.rs.  The mutual
recursion of the source (nested lists re-enter the list parser, list-item
content re-enters parse_block) is bounded by a fuel argument; the top-level
entry point supplies fuel exceeding the token count, which the concrete
evaluations below never exhaust. -/
mutual
def parse_block_fuel : Nat → List Token → Option MdBlockElement
  | 0, _ => none
  | fuel + 1, line =>
    match line.head? with
    | some (Token.Punctuation s) =>
      if s = "#" then some (parse_heading line)
      else if s = "-" then
        if line.length = 1 then some MdBlockElement.ThematicBreak
        else some (MdBlockElement.UnorderedList
          (parse_list_items fuel is_unordered_list_item (split_on_newline line)))
      else some (MdBlockElement.Paragraph (parse_inline line))
    | some (Token.OrderedListMarker _) =>
      some (MdBlockElement.OrderedList
        (parse_list_items fuel is_ordered_list_item (split_on_newline line)))
    | some Token.CodeFence => some (parse_codeblock line)
    | some Token.ThematicBreak => some MdBlockElement.ThematicBreak
    | some Token.Newline => none
    | _ => some (MdBlockElement.Paragraph (parse_inline line))

def parse_list_items : Nat → (List Token → Bool) → List (List Token) → List MdListItem
  | 0, _, _ => []
  | fuel + 1, is_list_item, lines =>
    match lines with
    | [] => []
    | line :: rest =>
      if is_list_item line then
        let items0 := match parse_block_fuel fuel (line.drop 2) with
          | some content => [MdListItem.mk content]
          | none => []
        let nested_lines := rest.takeWhile (fun l => l.head? = some Token.Tab)
        let rest' := rest.dropWhile (fun l => l.head? = some Token.Tab)
        if !nested_lines.isEmpty then
          let nested_detabbed := nested_lines.map (fun l => l.dropWhile (fun t => t = Token.Tab))
          let nested_tokens := List.intercalate [Token.Newline] nested_detabbed
          let nested_block := match nested_tokens.head? with
            | some (Token.OrderedListMarker _) =>
              MdBlockElement.OrderedList
                (parse_list_items fuel is_ordered_list_item (split_on_newline nested_tokens))
            | _ =>
              MdBlockElement.UnorderedList
                (parse_list_items fuel is_unordered_list_item (split_on_newline nested_tokens))
          items0 ++ [MdListItem.mk nested_block] ++ parse_list_items fuel is_list_item rest'
        else
          items0 ++ parse_list_items fuel is_list_item rest
      else
        parse_list_items fuel is_list_item rest
end

/- parse_block of src/parser.rs at its call sites (fuel covering any nesting
the line can express). -/
def parse_block (line : List Token) : Option MdBlockElement :=
  parse_block_fuel (line.length + 2) line

/- parse_blocks of src/parser.rs. -/
def parse_blocks (markdown_lines : List (List Token)) : List MdBlockElement :=
  markdown_lines.filterMap parse_block

/- The body of the per-line loop of group_lines_to_blocks
(src/parser.rs 746-961).  State: the finalized blocks and the
is_inside_code_block flag.  current_block lives only within one iteration
(it is flushed into blocks and cleared at every line's end), so branches
that extend it simply append the line as a new block (a line with tokens is
never empty there).  previous_block is the last finalized block. -/
def group_step (st : List (List Token) × Bool) (line : List Token) :
    List (List Token) × Bool :=
  let (blocks, is_inside_code_block) := st
  let previous_block := blocks.getLast?.getD []
  if is_inside_code_block ∧ ¬(line.head? = some Token.CodeFence) then
    (blocks.dropLast ++ [previous_block ++ line ++ [Token.Newline]], is_inside_code_block)
  else if is_inside_code_block ∧ line.head? = some Token.CodeFence then
    (blocks.dropLast ++ [previous_block ++ line], false)
  else
    match line.head? with
    | some (Token.Punctuation s) =>
      if s = "#" then (blocks ++ [line], is_inside_code_block)
      else if s = "-" then
        match previous_block.head? with
        | some (Token.Punctuation ps) =>
          if ps = "-" ∧ previous_block.get? 1 = some Token.Whitespace then
            (blocks.dropLast ++ [previous_block ++ [Token.Newline] ++ line],
              is_inside_code_block)
          else if ps = "#" then (blocks ++ [line], is_inside_code_block)
          else if line.length > 1 then (blocks ++ [line], is_inside_code_block)
          else
            (blocks.dropLast ++ [[Token.Punctuation "#", Token.Punctuation "#",
              Token.Whitespace] ++ previous_block], is_inside_code_block)
        | some _ =>
          if line.length > 1 then (blocks ++ [line], is_inside_code_block)
          else
            (blocks.dropLast ++ [[Token.Punctuation "#", Token.Punctuation "#",
              Token.Whitespace] ++ previous_block], is_inside_code_block)
        | none => (blocks ++ [line], is_inside_code_block)
      else (blocks ++ [line], is_inside_code_block)
    | some Token.Tab =>
      if line.length > 1 then
        let has_content := (line.drop 1).any
          (fun t => !(t = Token.Tab ∨ t = Token.Whitespace))
        if has_content then
          if !previous_block.isEmpty then
            match previous_block.head? with
            | some (Token.Punctuation ps) =>
              if ps = "-" ∧ previous_block.get? 1 = some Token.Whitespace then
                (blocks.dropLast ++ [previous_block ++ [Token.Newline] ++ line],
                  is_inside_code_block)
              else (blocks ++ [line], is_inside_code_block)
            | some (Token.OrderedListMarker _) =>
              if previous_block.get? 1 = some Token.Whitespace then
                (blocks.dropLast ++ [previous_block ++ [Token.Newline] ++ line],
                  is_inside_code_block)
              else (blocks ++ [line], is_inside_code_block)
            | _ => (blocks ++ [line], is_inside_code_block)
          else (blocks ++ [line], is_inside_code_block)
        else (blocks, is_inside_code_block)
      else (blocks, is_inside_code_block)
    | some (Token.OrderedListMarker _) =>
      match previous_block.head? with
      | some (Token.OrderedListMarker _) =>
        if previous_block.get? 1 = some Token.Whitespace then
          (blocks.dropLast ++ [previous_block ++ [Token.Newline] ++ line],
            is_inside_code_block)
        else (blocks ++ [line], is_inside_code_block)
      | some _ => (blocks ++ [line], is_inside_code_block)
      | none => (blocks ++ [line], is_inside_code_block)
    | some Token.ThematicBreak =>
      match previous_block.head? with
      | some (Token.Punctuation ps) =>
        if ps = "#" then (blocks ++ [line], is_inside_code_block)
        else
          (blocks.dropLast ++ [[Token.Punctuation "#", Token.Punctuation "#",
            Token.Whitespace] ++ previous_block], is_inside_code_block)
      | some Token.Newline => (blocks ++ [line], is_inside_code_block)
      | some _ =>
        (blocks.dropLast ++ [[Token.Punctuation "#", Token.Punctuation "#",
          Token.Whitespace] ++ previous_block], is_inside_code_block)
      | none => (blocks ++ [line], is_inside_code_block)
    | some Token.CodeTick => (blocks ++ [line], is_inside_code_block)
    | some Token.CodeFence =>
      if !is_inside_code_block then (blocks ++ [line], true)
      else (blocks ++ [line], false)
    | some (Token.Text s) =>
      if s = "=" then
        match previous_block.head? with
        | some (Token.Text _) =>
          (blocks.dropLast ++ [[Token.Punctuation "#", Token.Whitespace] ++ previous_block],
            is_inside_code_block)
        | some _ => (blocks, is_inside_code_block)
        | none => (blocks ++ [line], is_inside_code_block)
      else
        if !previous_block.isEmpty then
          match previous_block.head? with
          | some (Token.Text _) =>
            (blocks.dropLast ++ [previous_block ++ [Token.Whitespace] ++ line],
              is_inside_code_block)
          | _ => (blocks ++ [line], is_inside_code_block)
        else (blocks ++ [line], is_inside_code_block)
    | some _ => (blocks ++ [line], is_inside_code_block)
    | none => (blocks, is_inside_code_block)

/- group_lines_to_blocks of src/parser.rs: a single forward pass. -/
def group_lines_to_blocks (tokenized_lines : List (List Token)) : List (List Token) :=
  (tokenized_lines.foldl group_step ([], false)).1

example :
    parse_blocks (group_lines_to_blocks
      (["- Item 1", "    - Nested 1.1", "    - Nested 1.2", "- Item 2"].map
        (fun l => (tokenize ascii_punctuation (ascii_graphemes l)).getD []))) =
      [MdBlockElement.UnorderedList
        [MdListItem.mk (MdBlockElement.Paragraph [MdInlineElement.Text "Item 1"]),
         MdListItem.mk (MdBlockElement.UnorderedList
           [MdListItem.mk (MdBlockElement.Paragraph [MdInlineElement.Text "Nested 1.1"]),
            MdListItem.mk (MdBlockElement.Paragraph [MdInlineElement.Text "Nested 1.2"])]),
         MdListItem.mk (MdBlockElement.Paragraph [MdInlineElement.Text "Item 2"])]] := by rfl

example :
    parse_block ((tokenize ascii_punctuation (ascii_graphemes "# Heading 1")).getD []) =
      some (MdBlockElement.Header 1 [MdInlineElement.Text "Heading 1"]) := by rfl

/-- C9: the four lines "- Item 1" / "    - Nested 1.1" / "    - Nested 1.2" /
"- Item 2", tokenized, grouped and block-parsed, yield one UnorderedList of
exactly 3 items whose middle item is itself an UnorderedList of exactly 2
items. -/
theorem c9_nested_list_round_trip :
    (["- Item 1", "    - Nested 1.1", "    - Nested 1.2", "- Item 2"].map
      (fun l => tokenize ascii_punctuation (ascii_graphemes l)) =
      [some [Token.Punctuation "-", Token.Whitespace, Token.Text "Item", Token.Whitespace,
        Token.Text "1"],
       some [Token.Tab, Token.Punctuation "-", Token.Whitespace, Token.Text "Nested",
        Token.Whitespace, Token.Text "1", Token.Punctuation ".", Token.Text "1"],
       some [Token.Tab, Token.Punctuation "-", Token.Whitespace, Token.Text "Nested",
        Token.Whitespace, Token.Text "1", Token.Punctuation ".", Token.Text "2"],
       some [Token.Punctuation "-", Token.Whitespace, Token.Text "Item", Token.Whitespace,
        Token.Text "2"]]) ∧
    parse_blocks (group_lines_to_blocks
      (["- Item 1", "    - Nested 1.1", "    - Nested 1.2", "- Item 2"].map
        (fun l => (tokenize ascii_punctuation (ascii_graphemes l)).getD []))) =
      [MdBlockElement.UnorderedList
        [MdListItem.mk (MdBlockElement.Paragraph [MdInlineElement.Text "Item 1"]),
         MdListItem.mk (MdBlockElement.UnorderedList
           [MdListItem.mk (MdBlockElement.Paragraph [MdInlineElement.Text "Nested 1.1"]),
            MdListItem.mk (MdBlockElement.Paragraph [MdInlineElement.Text "Nested 1.2"])]),
         MdListItem.mk (MdBlockElement.Paragraph [MdInlineElement.Text "Item 2"])]] :=
  ⟨rfl, rfl⟩

/-- C7 as stated is false: a ThematicBreak line after an unordered-list block
does not stand alone — the grouper reclassifies the LIST block as a setext
level-2 heading (and discards the ThematicBreak line). -/
theorem c7_counterexample :
    tokenize ascii_punctuation (ascii_graphemes "- a") =
      some [Token.Punctuation "-", Token.Whitespace, Token.Text "a"] ∧
    tokenize ascii_punctuation (ascii_graphemes "---") = some [Token.ThematicBreak] ∧
    group_lines_to_blocks [[Token.Punctuation "-", Token.Whitespace, Token.Text "a"],
        [Token.ThematicBreak]] =
      [[Token.Punctuation "#", Token.Punctuation "#", Token.Whitespace,
        Token.Punctuation "-", Token.Whitespace, Token.Text "a"]] ∧
    group_lines_to_blocks [[Token.Punctuation "-", Token.Whitespace, Token.Text "a"],
        [Token.ThematicBreak]] ≠
      [[Token.Punctuation "-", Token.Whitespace, Token.Text "a"], [Token.ThematicBreak]] := by
  refine ⟨rfl, rfl, rfl, ?_⟩
  decide

/-- C7 (amended): outside a code fence, a ThematicBreak-leading line stands
alone exactly when there is no previous block content or the previous block
starts with '#' punctuation or with Newline; in EVERY other case — including
when the previous block is a list — the previous block is reclassified as a
setext level-2 heading (## prepended) and the ThematicBreak line itself is
discarded. -/
theorem c7_thematic_break_amended :
    ∀ (blocks : List (List Token)) (rest : List Token),
      (blocks.getLast?.getD [] = [] →
        group_step (blocks, false) (Token.ThematicBreak :: rest) =
          (blocks ++ [Token.ThematicBreak :: rest], false)) ∧
      ((blocks.getLast?.getD []).head? = some (Token.Punctuation "#") →
        group_step (blocks, false) (Token.ThematicBreak :: rest) =
          (blocks ++ [Token.ThematicBreak :: rest], false)) ∧
      ((blocks.getLast?.getD []).head? = some Token.Newline →
        group_step (blocks, false) (Token.ThematicBreak :: rest) =
          (blocks ++ [Token.ThematicBreak :: rest], false)) ∧
      (∀ t, (blocks.getLast?.getD []).head? = some t →
        t ≠ Token.Punctuation "#" → t ≠ Token.Newline →
        group_step (blocks, false) (Token.ThematicBreak :: rest) =
          (blocks.dropLast ++ [[Token.Punctuation "#", Token.Punctuation "#",
            Token.Whitespace] ++ blocks.getLast?.getD []], false)) := by
  intro blocks rest
  refine ⟨?_, ?_, ?_, ?_⟩
  · intro hprev
    simp [group_step, hprev]
  · intro hprev
    simp [group_step, hprev]
  · intro hprev
    simp [group_step, hprev]
  · intro t hprev hnp hnn
    cases t with
    | Punctuation s =>
      have hs : ¬s = "#" := fun h => hnp (by rw [h])
      simp [group_step, hprev, hs]
    | Newline => exact absurd rfl hnn
    | Text s => simp [group_step, hprev]
    | _ => simp [group_step, hprev]

/-- Witness for the amended C7: after the list block of "- a", a
ThematicBreak line is merged into a setext level-2 heading. -/
theorem c7_thematic_break_amended_witness :
    group_step ([[Token.Punctuation "-", Token.Whitespace, Token.Text "a"]], false)
        (Token.ThematicBreak :: []) =
      ([[Token.Punctuation "#", Token.Punctuation "#", Token.Whitespace,
        Token.Punctuation "-", Token.Whitespace, Token.Text "a"]], false) :=
  (c7_thematic_break_amended [[Token.Punctuation "-", Token.Whitespace, Token.Text "a"]]
    []).2.2.2 (Token.Punctuation "-") rfl (by decide) (by decide)

/-- Modelled from the spec: the pipe-table support is absent from the provided
src (tokenize never emits TableCellSeparator and parse_block has no table
branch; only the Table/MdTableCell/TableAlignment declarations and the table
tests remain), so the cell split of a table row follows the spec's words: a
row is cut at every TableCellSeparator, and the fragments before the leading
and after the trailing separator are discarded (missing/empty cells at row
end become empty fragments). -/
def split_on_cell_sep : List Token → List (List Token)
  | [] => [[]]
  | t :: rest =>
    if t = Token.TableCellSeparator then [] :: split_on_cell_sep rest
    else
      match split_on_cell_sep rest with
      | [] => [[t]]
      | g :: gs => (t :: g) :: gs

/-- Modelled from the spec: the cells of one pipe-table row. -/
def table_row_cells (row : List Token) : List (List Token) :=
  ((split_on_cell_sep row).drop 1).dropLast

/-- Modelled from the spec: one alignment-row cell, using the
`:--` / `:-:` / `--:` / `--` syntax — a leading colon and trailing colon give
Center, only a leading colon Left, only a trailing colon Right, neither
None.  Whitespace inside the cell is ignored. -/
def parse_alignment_cell (cell : List Token) : TableAlignment :=
  let core := cell.filter (fun t => !(t = Token.Whitespace ∨ t = Token.Tab))
  let starts_colon := core.head? = some (Token.Punctuation ":")
  let ends_colon := core.getLast? = some (Token.Punctuation ":")
  if starts_colon ∧ ends_colon then TableAlignment.Center
  else if starts_colon then TableAlignment.Left
  else if ends_colon then TableAlignment.Right
  else TableAlignment.None

/-- Modelled from the spec: the pipe-table branch of parse_block.  The first
row of the group is the header row, the second the alignment row (absent from
the body), the rest the body rows; every cell's content is inline-parsed and
its alignment taken from the alignment row by column index (None beyond the
alignment row's width). -/
def parse_table (group : List Token) : MdBlockElement :=
  let rows := split_on_newline group
  let alignments := (table_row_cells ((rows.get? 1).getD [])).map parse_alignment_cell
  let cell_of := fun (hdr : Bool) (p : Nat × List Token) =>
    MdTableCell.mk (parse_inline p.2) ((alignments.get? p.1).getD TableAlignment.None) hdr
  let headers := (table_row_cells (rows.head?.getD [])).enum.map (cell_of true)
  let body := (rows.drop 2).map (fun row => (table_row_cells row).enum.map (cell_of false))
  MdBlockElement.Table headers body

/-- C1 (against the spec-modelled table parser): a 2-column pipe-table token
group — a header row, a ":--|:-:|" alignment row and two body rows — parses
to a Table with 2 header cells and 2 body rows, the alignment row absent from
the body, and the alignments [Left, Center] propagated from the alignment row
to every cell of the respective columns. -/
theorem c1_table_shape :
    parse_table
      ([Token.TableCellSeparator, Token.Whitespace, Token.Text "A", Token.Whitespace,
        Token.TableCellSeparator, Token.Whitespace, Token.Text "B", Token.Whitespace,
        Token.TableCellSeparator, Token.Newline,
        Token.TableCellSeparator, Token.Whitespace, Token.Punctuation ":",
        Token.Punctuation "-", Token.Punctuation "-", Token.Whitespace,
        Token.TableCellSeparator, Token.Whitespace, Token.Punctuation ":",
        Token.Punctuation "-", Token.Punctuation ":", Token.Whitespace,
        Token.TableCellSeparator, Token.Newline,
        Token.TableCellSeparator, Token.Whitespace, Token.Text "C", Token.Whitespace,
        Token.TableCellSeparator, Token.Whitespace, Token.Text "D", Token.Whitespace,
        Token.TableCellSeparator, Token.Newline,
        Token.TableCellSeparator, Token.Whitespace, Token.Text "E", Token.Whitespace,
        Token.TableCellSeparator, Token.Whitespace, Token.Text "F", Token.Whitespace,
        Token.TableCellSeparator]) =
      MdBlockElement.Table
        [MdTableCell.mk [MdInlineElement.Text " A "] TableAlignment.Left true,
         MdTableCell.mk [MdInlineElement.Text " B "] TableAlignment.Center true]
        [[MdTableCell.mk [MdInlineElement.Text " C "] TableAlignment.Left false,
          MdTableCell.mk [MdInlineElement.Text " D "] TableAlignment.Center false],
         [MdTableCell.mk [MdInlineElement.Text " E "] TableAlignment.Left false,
          MdTableCell.mk [MdInlineElement.Text " F "] TableAlignment.Center false]] ∧
    ([MdTableCell.mk [MdInlineElement.Text " A "] TableAlignment.Left true,
      MdTableCell.mk [MdInlineElement.Text " B "] TableAlignment.Center true].length = 2) ∧
    ([[MdTableCell.mk [MdInlineElement.Text " C "] TableAlignment.Left false,
       MdTableCell.mk [MdInlineElement.Text " D "] TableAlignment.Center false],
      [MdTableCell.mk [MdInlineElement.Text " E "] TableAlignment.Left false,
       MdTableCell.mk [MdInlineElement.Text " F "] TableAlignment.Center false]].length = 2) ∧
    ([MdTableCell.mk [MdInlineElement.Text " A "] TableAlignment.Left true,
      MdTableCell.mk [MdInlineElement.Text " B "] TableAlignment.Center true].map
        MdTableCell.alignment = [TableAlignment.Left, TableAlignment.Center]) ∧
    ([[MdTableCell.mk [MdInlineElement.Text " C "] TableAlignment.Left false,
       MdTableCell.mk [MdInlineElement.Text " D "] TableAlignment.Center false],
      [MdTableCell.mk [MdInlineElement.Text " E "] TableAlignment.Left false,
       MdTableCell.mk [MdInlineElement.Text " F "] TableAlignment.Center false]].map
        (fun r => r.map MdTableCell.alignment) =
      [[TableAlignment.Left, TableAlignment.Center],
       [TableAlignment.Left, TableAlignment.Center]]) :=
  ⟨rfl, rfl, rfl, rfl, rfl⟩
